import Mathlib

/-
  Verification development for the ReFuel rate-normalization and comparison
  engine (backend/services/comparison_service.py,
  backend/services/dhl_germany_weekly_mapper.py,
  backend/services/overview_analytics.py, backend/config.py).

  Modelling conventions:
  * Python floats are modelled by exact rationals.
  * Python round() rounds half to even; it is modelled by rhe below.
  * ISO date strings "YYYY-MM-DD" are modelled as year/month/day triples;
    lexicographic comparison of well-formed zero-padded ISO strings agrees
    with the lexicographic order on the triples used here.
  * Python list.sort / sorted are stable sorts over total preorders; they
    are modelled by List.insertionSort, which is also stable, so the two
    produce identical output.
  * A Python function that can raise KeyError is modelled with Option,
    none standing for the raised exception.
-/

namespace ReFuel

/-- Round half to even, the tie-breaking rule of Python round() on the exact
value of its argument. -/
def rhe (x : ℚ) : ℤ :=
  if Int.fract x < 1/2 then ⌊x⌋
  else if 1/2 < Int.fract x then ⌊x⌋ + 1
  else if ⌊x⌋ % 2 = 0 then ⌊x⌋ else ⌊x⌋ + 1

/-- Python round(x, 2): round half to even at two decimal places. -/
def round2 (x : ℚ) : ℚ := (rhe (x * 100) : ℚ) / 100

theorem floor_le_rhe (x : ℚ) : ⌊x⌋ ≤ rhe x := by
  unfold rhe
  split_ifs <;> omega

theorem rhe_le_floor_add_one (x : ℚ) : rhe x ≤ ⌊x⌋ + 1 := by
  unfold rhe
  split_ifs <;> omega

theorem rhe_mono {x y : ℚ} (h : x ≤ y) : rhe x ≤ rhe y := by
  rcases lt_or_eq_of_le (Int.floor_mono h) with hf | hf
  · calc rhe x ≤ ⌊x⌋ + 1 := rhe_le_floor_add_one x
    _ ≤ ⌊y⌋ := by omega
    _ ≤ rhe y := floor_le_rhe y
  · have hfr : Int.fract x ≤ Int.fract y := by
      unfold Int.fract
      rw [hf]
      linarith
    unfold rhe
    rw [hf]
    split_ifs <;> first | omega | linarith

theorem rhe_intCast (n : ℤ) : rhe (n : ℚ) = n := by
  unfold rhe
  simp [Int.fract_intCast]

/-! ## TemporalAligner: services/dhl_germany_weekly_mapper.py -/

/-- A calendar date, standing for an ISO "YYYY-MM-DD" string. -/
structure Date where
  year : Nat
  month : Nat
  day : Nat
deriving DecidableEq

/-- String comparison of two ISO dates (lexicographic, total). -/
def dateLeB (a b : Date) : Bool :=
  decide (a.year < b.year) ||
    (decide (a.year = b.year) &&
      (decide (a.month < b.month) || (decide (a.month = b.month) && decide (a.day ≤ b.day))))

/-- Strict string comparison of two ISO dates. -/
def dateLtB (a b : Date) : Bool :=
  decide (a.year < b.year) ||
    (decide (a.year = b.year) &&
      (decide (a.month < b.month) || (decide (a.month = b.month) && decide (a.day < b.day))))

/-- The weekly dates of calendar month (y, m), sorted ascending: the code
groups weekly_dates by (dt.year, dt.month) and sorts each group. -/
def monthDates (weekly_dates : List Date) (y m : Nat) : List Date :=
  List.insertionSort (fun a b => dateLeB a b = true)
    (weekly_dates.filter (fun d => decide (d.year = y) && decide (d.month = m)))

/-- Previous calendar month (source: _get_prev_month). -/
def _get_prev_month (y m : Nat) : Nat × Nat :=
  if m = 1 then (y - 1, 12) else (y, m - 1)

/-- Third weekly release date of month (y, m), none if fewer than 3 weekly
dates fall in that month (source: _get_third_release_date). -/
def _get_third_release_date (weekly_dates : List Date) (y m : Nat) : Option Date :=
  (monthDates weekly_dates y m)[2]?

/-- Window boundary resolution for DHL month (y, m), as inlined in
compute_dhl_weekly_windows: start is thirdRelease(M-2) with fallback to the
earliest weekly date of M-2, end is thirdRelease(M-1) with fallback to the
earliest weekly date of M-1; none if either side stays unresolved. -/
def windowBounds (weekly_dates : List Date) (y m : Nat) : Option (Date × Date) :=
  let p1 := _get_prev_month y m
  let p2 := _get_prev_month p1.1 p1.2
  let start? :=
    match _get_third_release_date weekly_dates p2.1 p2.2 with
    | some d => some d
    | none => (monthDates weekly_dates p2.1 p2.2).head?
  let end? :=
    match _get_third_release_date weekly_dates p1.1 p1.2 with
    | some d => some d
    | none => (monthDates weekly_dates p1.1 p1.2).head?
  match start?, end? with
  | some s, some e => some (s, e)
  | _, _ => none

/-- The weekly dates receiving the monthly value of DHL month (y, m): all
input weekly dates inside the half-open window, in input order. -/
def dhl_window_dates (weekly_dates : List Date) (y m : Nat) : List Date :=
  match windowBounds weekly_dates y m with
  | none => []
  | some (s, e) => weekly_dates.filter (fun d => dateLeB s d && dateLtB d e)

/-- One published monthly value of DHL Germany. -/
structure MonthVal where
  surcharge : ℚ
  text : String
deriving DecidableEq

/-- Source table DHL_GERMANY_MONTHLY; month keys "YYYY-MM" are modelled as
(year, month) pairs. -/
def DHL_GERMANY_MONTHLY : List (String × List ((Nat × Nat) × MonthVal)) :=
  [("ground_domestic",
    [((2025, 10), ⟨75/4, "18.75%"⟩), ((2025, 11), ⟨37/2, "18.50%"⟩),
     ((2025, 12), ⟨39/2, "19.50%"⟩)]),
   ("international_air_export",
    [((2025, 10), ⟨119/4, "29.75%"⟩), ((2025, 11), ⟨30, "30.00%"⟩),
     ((2025, 12), ⟨63/2, "31.50%"⟩)]),
   ("international_air_import",
    [((2025, 10), ⟨119/4, "29.75%"⟩), ((2025, 11), ⟨30, "30.00%"⟩),
     ((2025, 12), ⟨63/2, "31.50%"⟩)])]

/-- The monthly table for a fuel category; [] models the early return for a
category that is not a key of DHL_GERMANY_MONTHLY. -/
def dhlMonthlyFor (fuel_category : String) : List ((Nat × Nat) × MonthVal) :=
  match DHL_GERMANY_MONTHLY.find? (fun p => decide (p.1 = fuel_category)) with
  | none => []
  | some p => p.2

/-- One output entry of the weekly mapper. -/
structure WeeklyEntry where
  date : Date
  dhl_month : Nat × Nat
  surcharge : ℚ
  value_text : String
deriving DecidableEq

/-- Source compute_dhl_weekly_windows: for each DHL month of the category's
table, resolve the averaging window from the reference weekly calendar and
emit one entry per weekly date inside it. -/
def compute_dhl_weekly_windows (weekly_dates : List Date) (fuel_category : String) :
    List WeeklyEntry :=
  (dhlMonthlyFor fuel_category).flatMap (fun p =>
    (dhl_window_dates weekly_dates p.1.1 p.1.2).map
      (fun d => ⟨d, p.1, p.2.surcharge, p.2.text⟩))

/-- The reference weekly calendar used by the repository's own unit tests. -/
def exampleWeeklyDates : List Date :=
  [⟨2025, 8, 11⟩, ⟨2025, 8, 18⟩, ⟨2025, 8, 25⟩, ⟨2025, 9, 1⟩, ⟨2025, 9, 8⟩,
   ⟨2025, 9, 15⟩, ⟨2025, 9, 22⟩, ⟨2025, 9, 29⟩, ⟨2025, 10, 6⟩, ⟨2025, 10, 13⟩,
   ⟨2025, 10, 20⟩, ⟨2025, 10, 27⟩, ⟨2025, 11, 3⟩, ⟨2025, 11, 10⟩,
   ⟨2025, 11, 17⟩, ⟨2025, 11, 24⟩]

/-- A reference weekly calendar in which 2025-08-18 is the third weekly date
of August 2025 and 2025-09-15 the third weekly date of September 2025, as
claim C1 requires. -/
def cxWeekly : List Date :=
  [⟨2025, 8, 4⟩, ⟨2025, 8, 11⟩, ⟨2025, 8, 18⟩, ⟨2025, 8, 25⟩, ⟨2025, 9, 1⟩,
   ⟨2025, 9, 8⟩, ⟨2025, 9, 15⟩]

/-- A second, tiny reference calendar used for witness instantiations. -/
def tinyWeekly : List Date := [⟨2025, 8, 18⟩, ⟨2025, 8, 25⟩, ⟨2025, 9, 15⟩]

theorem dhl_window_dates_subset {w : List Date} {y m : Nat} :
    ∀ d ∈ dhl_window_dates w y m, d ∈ w := by
  intro d hd
  unfold dhl_window_dates at hd
  rcases hw : windowBounds w y m with _ | ⟨s, e⟩ <;> rw [hw] at hd
  · simp at hd
  · exact List.mem_of_mem_filter hd

theorem mem_of_third_release {w : List Date} {y m : Nat} {d : Date}
    (h : _get_third_release_date w y m = some d) : d ∈ w := by
  unfold _get_third_release_date at h
  have hm : d ∈ monthDates w y m := by
    have := List.getElem?_eq_some.1 h
    rcases this with ⟨hlt, hget⟩
    exact hget ▸ List.getElem_mem _
  exact List.mem_of_mem_filter ((List.mem_insertionSort _).1 hm)

/-- Keeping only entries of one DHL month from the fan-out of another month:
everything survives when the months agree, nothing when they differ. -/
theorem filter_month_of_map (l : List Date) (k k0 : Nat × Nat) (s : ℚ) (t : String) :
    ((l.map (fun d => (⟨d, k, s, t⟩ : WeeklyEntry))).filter
        (fun e => decide (e.dhl_month = k0)))
      = if k = k0 then l.map (fun d => (⟨d, k, s, t⟩ : WeeklyEntry)) else [] := by
  induction l with
  | nil => simp
  | cons d ds ih =>
    by_cases hk : k = k0
    · simp only [hk, if_pos] at ih ⊢
      simp [ih]
    · simp only [hk, if_neg, not_false_iff] at ih ⊢
      simp [ih, hk]

theorem dhlMonthlyFor_ground : dhlMonthlyFor "ground_domestic"
    = [((2025, 10), ⟨75/4, "18.75%"⟩), ((2025, 11), ⟨37/2, "18.50%"⟩),
       ((2025, 12), ⟨39/2, "19.50%"⟩)] := rfl

theorem dhlMonthlyFor_export : dhlMonthlyFor "international_air_export"
    = [((2025, 10), ⟨119/4, "29.75%"⟩), ((2025, 11), ⟨30, "30.00%"⟩),
       ((2025, 12), ⟨63/2, "31.50%"⟩)] := rfl

theorem dhlMonthlyFor_import : dhlMonthlyFor "international_air_import"
    = [((2025, 10), ⟨119/4, "29.75%"⟩), ((2025, 11), ⟨30, "30.00%"⟩),
       ((2025, 12), ⟨63/2, "31.50%"⟩)] := rfl

/-- C1 (corrected). If 2025-08-18 is the third weekly date of August 2025 and
2025-09-15 the third weekly date of September 2025, the October monthly value
is mapped to the window from 2025-08-18 inclusive to 2025-09-15 exclusive, and
the emitted dates are exactly the reference weekly dates inside that window:
these include 2025-08-18 itself as well as 2025-08-25, 2025-09-01 and
2025-09-08, and exclude 2025-09-15. -/
theorem C1_amended (weekly : List Date)
    (h8 : _get_third_release_date weekly 2025 8 = some ⟨2025, 8, 18⟩)
    (h9 : _get_third_release_date weekly 2025 9 = some ⟨2025, 9, 15⟩)
    (m25 : (⟨2025, 8, 25⟩ : Date) ∈ weekly)
    (m01 : (⟨2025, 9, 1⟩ : Date) ∈ weekly)
    (m08 : (⟨2025, 9, 8⟩ : Date) ∈ weekly) :
    windowBounds weekly 2025 10 = some (⟨2025, 8, 18⟩, ⟨2025, 9, 15⟩) ∧
    ∀ cat ∈ (["ground_domestic", "international_air_export",
        "international_air_import"] : List String),
      (((compute_dhl_weekly_windows weekly cat).filter
            (fun e => decide (e.dhl_month = (2025, 10)))).map (fun e => e.date)
        = weekly.filter (fun d => dateLeB ⟨2025, 8, 18⟩ d && dateLtB d ⟨2025, 9, 15⟩)) ∧
      (⟨2025, 8, 18⟩ : Date) ∈ weekly.filter
          (fun d => dateLeB ⟨2025, 8, 18⟩ d && dateLtB d ⟨2025, 9, 15⟩) ∧
      (⟨2025, 8, 25⟩ : Date) ∈ weekly.filter
          (fun d => dateLeB ⟨2025, 8, 18⟩ d && dateLtB d ⟨2025, 9, 15⟩) ∧
      (⟨2025, 9, 1⟩ : Date) ∈ weekly.filter
          (fun d => dateLeB ⟨2025, 8, 18⟩ d && dateLtB d ⟨2025, 9, 15⟩) ∧
      (⟨2025, 9, 8⟩ : Date) ∈ weekly.filter
          (fun d => dateLeB ⟨2025, 8, 18⟩ d && dateLtB d ⟨2025, 9, 15⟩) ∧
      (⟨2025, 9, 15⟩ : Date) ∉ weekly.filter
          (fun d => dateLeB ⟨2025, 8, 18⟩ d && dateLtB d ⟨2025, 9, 15⟩) := by
  have hw : windowBounds weekly 2025 10 = some (⟨2025, 8, 18⟩, ⟨2025, 9, 15⟩) := by
    unfold windowBounds _get_prev_month
    norm_num
    rw [h8, h9]
  have hwin : dhl_window_dates weekly 2025 10
      = weekly.filter (fun d => dateLeB ⟨2025, 8, 18⟩ d && dateLtB d ⟨2025, 9, 15⟩) := by
    unfold dhl_window_dates
    rw [hw]
  refine ⟨hw, ?_⟩
  intro cat hcat
  have hfil : ∀ cat0 ∈ (["ground_domestic", "international_air_export",
      "international_air_import"] : List String),
      ((compute_dhl_weekly_windows weekly cat0).filter
          (fun e => decide (e.dhl_month = (2025, 10)))).map (fun e => e.date)
        = dhl_window_dates weekly 2025 10 := by
    intro cat0 hcat0
    fin_cases hcat0 <;>
      simp [compute_dhl_weekly_windows, dhlMonthlyFor_ground, dhlMonthlyFor_export,
        dhlMonthlyFor_import, List.flatMap_cons, List.flatMap_nil,
        List.filter_append, filter_month_of_map, List.map_map, Function.comp_def]
  refine ⟨(hfil cat hcat).trans hwin, ?_, ?_, ?_, ?_, ?_⟩
  · exact List.mem_filter.2 ⟨mem_of_third_release h8, by decide⟩
  · exact List.mem_filter.2 ⟨m25, by decide⟩
  · exact List.mem_filter.2 ⟨m01, by decide⟩
  · exact List.mem_filter.2 ⟨m08, by decide⟩
  · intro hmem
    have := (List.mem_filter.1 hmem).2
    simp [dateLtB] at this

/-- C1, as stated, is false: on a calendar where 2025-08-18 is the third
weekly date of August 2025 and 2025-09-15 the third of September 2025, the
October fan-out also emits 2025-08-18 (the inclusive window start), so the
emitted dates are not exactly 2025-08-25, 2025-09-01, 2025-09-08. -/
theorem C1_counterexample :
    _get_third_release_date cxWeekly 2025 8 = some ⟨2025, 8, 18⟩ ∧
    _get_third_release_date cxWeekly 2025 9 = some ⟨2025, 9, 15⟩ ∧
    ((compute_dhl_weekly_windows cxWeekly "international_air_export").filter
        (fun e => decide (e.dhl_month = (2025, 10)))).map (fun e => e.date)
      = [⟨2025, 8, 18⟩, ⟨2025, 8, 25⟩, ⟨2025, 9, 1⟩, ⟨2025, 9, 8⟩] ∧
    (⟨2025, 8, 18⟩ : Date) ∉ ([⟨2025, 8, 25⟩, ⟨2025, 9, 1⟩, ⟨2025, 9, 8⟩] : List Date) := by
  exact ⟨by decide, by decide, by decide, by decide⟩

/-- Witness for C1_amended at a concrete calendar. -/
theorem C1_amended_witness :
    windowBounds cxWeekly 2025 10 = some (⟨2025, 8, 18⟩, ⟨2025, 9, 15⟩) ∧
    ((compute_dhl_weekly_windows cxWeekly "ground_domestic").filter
        (fun e => decide (e.dhl_month = (2025, 10)))).map (fun e => e.date)
      = cxWeekly.filter (fun d => dateLeB ⟨2025, 8, 18⟩ d && dateLtB d ⟨2025, 9, 15⟩) := by
  have h := C1_amended cxWeekly (by decide) (by decide) (by decide) (by decide) (by decide)
  exact ⟨h.1, (h.2 "ground_domestic" (by decide)).1⟩

/-- C7 (confirmed). For every reference weekly calendar, the three fuel
categories of the DHL monthly table emit entries with identical (date,
month-key) lists; only the surcharge payload differs. -/
theorem C7_identical_date_coverage (weekly_dates : List Date) :
    ((compute_dhl_weekly_windows weekly_dates "ground_domestic").map
        (fun e => (e.date, e.dhl_month))
      = (compute_dhl_weekly_windows weekly_dates "international_air_export").map
          (fun e => (e.date, e.dhl_month))) ∧
    ((compute_dhl_weekly_windows weekly_dates "international_air_export").map
        (fun e => (e.date, e.dhl_month))
      = (compute_dhl_weekly_windows weekly_dates "international_air_import").map
          (fun e => (e.date, e.dhl_month))) := by
  constructor <;>
    simp [compute_dhl_weekly_windows, dhlMonthlyFor_ground, dhlMonthlyFor_export,
      dhlMonthlyFor_import, List.flatMap_cons, List.flatMap_nil, List.map_append,
      List.map_map, Function.comp_def]

/-- C10 (confirmed). Every emitted entry takes its date from the input weekly
calendar and its month key and payload from the monthly table of the requested
fuel category; a category absent from the table yields the empty list. -/
theorem C10_entries_from_inputs (weekly_dates : List Date) (fuel_category : String) :
    (∀ e ∈ compute_dhl_weekly_windows weekly_dates fuel_category,
      e.date ∈ weekly_dates ∧
      ∃ mv, (e.dhl_month, mv) ∈ dhlMonthlyFor fuel_category ∧
        e.surcharge = mv.surcharge ∧ e.value_text = mv.text) ∧
    (DHL_GERMANY_MONTHLY.find? (fun p => decide (p.1 = fuel_category)) = none →
      compute_dhl_weekly_windows weekly_dates fuel_category = []) := by
  constructor
  · intro e he
    unfold compute_dhl_weekly_windows at he
    rcases List.mem_flatMap.1 he with ⟨p, hp, he2⟩
    rcases List.mem_map.1 he2 with ⟨d, hd, rfl⟩
    exact ⟨dhl_window_dates_subset d hd, p.2, by simpa using hp, rfl, rfl⟩
  · intro hnone
    unfold compute_dhl_weekly_windows dhlMonthlyFor
    rw [hnone]
    rfl

/-- Witness for C10_entries_from_inputs at a concrete entry and a concrete
unknown category. -/
theorem C10_witness :
    (⟨2025, 8, 18⟩ : Date) ∈ tinyWeekly ∧
    (∃ mv, ((2025, 10), mv) ∈ dhlMonthlyFor "ground_domestic" ∧
      (75/4 : ℚ) = mv.surcharge ∧ "18.75%" = mv.text) ∧
    compute_dhl_weekly_windows tinyWeekly "fresh_food" = [] := by
  have hc : compute_dhl_weekly_windows tinyWeekly "ground_domestic"
      = (⟨⟨2025, 8, 18⟩, (2025, 10), 75/4, "18.75%"⟩ : WeeklyEntry)
        :: [⟨⟨2025, 8, 25⟩, (2025, 10), 75/4, "18.75%"⟩] := rfl
  have hmem : (⟨⟨2025, 8, 18⟩, (2025, 10), 75/4, "18.75%"⟩ : WeeklyEntry)
      ∈ compute_dhl_weekly_windows tinyWeekly "ground_domestic" := by
    rw [hc]
    exact List.mem_cons_self _ _
  have h := (C10_entries_from_inputs tinyWeekly "ground_domestic").1 _ hmem
  have h2 := (C10_entries_from_inputs tinyWeekly "fresh_food").2 rfl
  exact ⟨h.1, h.2, h2⟩

/-! ## FormulaEngine and RangeNormalizer: services/comparison_service.py, config.py -/

/-- One scraped price band row (the fields the comparison service reads). -/
structure Band where
  carrier : String
  at_least_usd : ℚ
  but_less_than_usd : ℚ
  surcharge_pct : ℚ
deriving DecidableEq

/-- One entry of config.UPS_FORMULAS; absent dictionary keys are none. -/
structure UPSFormula where
  pivot_threshold : Option ℚ := none
  above_threshold : Option ℚ := none
  above_increment : Option ℚ := none
  above_pct_increment : Option ℚ := none
  below_threshold : Option ℚ := none
  below_increment : Option ℚ := none
  below_pct_increment : Option ℚ := none
  increment : Option ℚ := none
  pct_increment : Option ℚ := none

/-- Config entry ("US", "UPS", "ground_domestic"): threshold 3.70, 0.10 price
steps, 0.50 percentage steps on both sides. -/
def upsGroundUS : UPSFormula :=
  { above_threshold := some (37/10), above_increment := some (1/10),
    above_pct_increment := some (1/2), below_threshold := some (37/10),
    below_increment := some (1/10), below_pct_increment := some (1/2) }

/-- Config entry ("US", "UPS", "domestic_air"): pivot 2.06, 0.05 steps above,
0.21 steps below, 0.25 percentage steps. -/
def upsDomesticAirUS : UPSFormula :=
  { pivot_threshold := some (103/50), above_threshold := some (103/50),
    above_increment := some (1/20), above_pct_increment := some (1/4),
    below_threshold := some (103/50), below_increment := some (21/100),
    below_pct_increment := some (1/4) }

/-- Config entries ("US", "UPS", "international_air_export" / "_import"):
0.04 price steps, 0.25 percentage steps. -/
def upsIntlAirUS : UPSFormula := { increment := some (1/25), pct_increment := some (1/4) }

/-- The UPS_FORMULAS dictionary of config.py, as a lookup on its four keys. -/
def UPS_FORMULAS (market carrier fuel_category : String) : Option UPSFormula :=
  if market = "US" ∧ carrier = "UPS" ∧ fuel_category = "ground_domestic" then
    some upsGroundUS
  else if market = "US" ∧ carrier = "UPS" ∧ fuel_category = "domestic_air" then
    some upsDomesticAirUS
  else if market = "US" ∧ carrier = "UPS" ∧ fuel_category = "international_air_export" then
    some upsIntlAirUS
  else if market = "US" ∧ carrier = "UPS" ∧ fuel_category = "international_air_import" then
    some upsIntlAirUS
  else none

/-- Source calculate_ups_surcharge. A direct dictionary access on a missing
key raises KeyError in Python; that is the none result here. The missing-key
fallback goes to the ("US", "UPS", "ground_domestic") formula. -/
def calculate_ups_surcharge (price : ℚ) (market : String) (fuel_category : String) :
    Option ℚ :=
  let formula :=
    match UPS_FORMULAS market "UPS" fuel_category with
    | some f => f
    | none => (UPS_FORMULAS "US" "UPS" "ground_domestic").getD {}
  if fuel_category = "domestic_air" ∧ formula.pivot_threshold.isSome = true then
    match formula.pivot_threshold, formula.above_pct_increment with
    | some THRESHOLD, some SURCHARGE_INCREMENT =>
      if price ≥ THRESHOLD then
        match formula.above_increment with
        | some PRICE_INCREMENT =>
          some (19 + (rhe ((price - THRESHOLD) / PRICE_INCREMENT) : ℚ) * SURCHARGE_INCREMENT)
        | none => none
      else
        match formula.below_increment with
        | some PRICE_INCREMENT =>
          some (19 - (rhe ((THRESHOLD - price) / PRICE_INCREMENT) : ℚ) * SURCHARGE_INCREMENT)
        | none => none
    | _, _ => none
  else if fuel_category = "international_air_export" ∨
      fuel_category = "international_air_import" then
    let BASE_SURCHARGE : ℚ := if fuel_category = "international_air_export" then 27 else 123/4
    match formula.increment, formula.pct_increment with
    | some PRICE_INCREMENT, some SURCHARGE_INCREMENT =>
      some (BASE_SURCHARGE +
        (rhe ((price - 247/100) / PRICE_INCREMENT) : ℚ) * SURCHARGE_INCREMENT)
    | _, _ => none
  else
    let THRESHOLD := formula.above_threshold.getD (71/20)
    let SURCHARGE_INCREMENT := formula.above_pct_increment.getD (1/4)
    if price ≥ THRESHOLD then
      let PRICE_INCREMENT := formula.above_increment.getD (9/100)
      some (20 + (rhe ((price - THRESHOLD) / PRICE_INCREMENT) : ℚ) * SURCHARGE_INCREMENT)
    else
      let PRICE_INCREMENT := formula.below_increment.getD (27/100)
      some (20 - (rhe ((THRESHOLD - price) / PRICE_INCREMENT) : ℚ) * SURCHARGE_INCREMENT)

/-- Width-first ordering on (band_width, surcharge_pct) pairs: Python sorts
the pairs by the width key with a stable sort, as insertionSort is. -/
def widthLe (a b : ℚ × ℚ) : Prop := a.1 ≤ b.1

instance : DecidableRel widthLe := fun a b => inferInstanceAs (Decidable (a.1 ≤ b.1))

instance : IsTotal (ℚ × ℚ) widthLe := ⟨fun a b => le_total a.1 b.1⟩

instance : IsTrans (ℚ × ℚ) widthLe := ⟨fun _ _ _ => le_trans⟩

/-- The bands of carrier_data overlapping the queried half-open interval. -/
def overlappingOf (min_val max_val : ℚ) (carrier_data : List Band) : List Band :=
  carrier_data.filter (fun it =>
    decide (it.at_least_usd < max_val) && decide (min_val < it.but_less_than_usd))

/-- The (band_width, surcharge_pct) pairs of the overlapping bands that are
not catch-all bands (width at most the 0.50 threshold), in input order. -/
def fineBandsOf (min_val max_val : ℚ) (carrier_data : List Band) : List (ℚ × ℚ) :=
  ((overlappingOf min_val max_val carrier_data).filter (fun it =>
    !decide (it.but_less_than_usd - it.at_least_usd > 1/2))).map
    (fun it => (it.but_less_than_usd - it.at_least_usd, it.surcharge_pct))

/-- Source _find_exact_or_containing: exact bound match first; otherwise sort
the fine (non-catch-all) overlapping bands by width and return the surcharge
of the narrowest, and none when only catch-all bands overlap (the catch-all
list is built by the source but never read). -/
def _find_exact_or_containing (min_val max_val : ℚ) (carrier_data : List Band) : Option ℚ :=
  match carrier_data.find? (fun it =>
      decide (it.at_least_usd = min_val) && decide (it.but_less_than_usd = max_val)) with
  | some it => some it.surcharge_pct
  | none =>
    match List.insertionSort widthLe (fineBandsOf min_val max_val carrier_data) with
    | [] => none
    | p :: _ => some p.2

/-- Source get_ups_surcharge_for_range: scraped data first, else the formula
when allowed, else the Python value None. The outer Option is the exception
channel: the overall none means the formula access raised KeyError (which a
caller observes as a propagated exception), while some none is the returned
null value; the two are distinct observable outcomes. -/
def get_ups_surcharge_for_range (at_least_usd but_less_than_usd : ℚ) (ups_data : List Band)
    (allow_formula : Bool) (market fuel_category : String) : Option (Option ℚ) :=
  match _find_exact_or_containing at_least_usd but_less_than_usd ups_data with
  | some exact => some (some exact)
  | none =>
    if allow_formula then
      (calculate_ups_surcharge at_least_usd market fuel_category).map some
    else some none

/-- Appending a band to its carrier bucket, creating the bucket at the end on
first sight of the carrier (Python dict insertion order). -/
def addToGroup (key : String) (b : Band) : List (String × List Band) → List (String × List Band)
  | [] => [(key, [b])]
  | (k, items) :: rest =>
    if k = key then (k, items ++ [b]) :: rest else (k, items) :: addToGroup key b rest

/-- The by_carrier grouping built at the top of the view functions. -/
def groupByCarrier (data : List Band) : List (String × List Band) :=
  data.foldl (fun acc b => addToGroup b.carrier b acc) []

/-- One output grid cell; the presentational price_range label of the source
rows is omitted. -/
structure Row where
  at_least_usd : ℚ
  but_less_than_usd : ℚ
  ups_pct : Option ℚ := none
  fedex_pct : Option ℚ := none
  dhl_pct : Option ℚ := none
deriving DecidableEq

/-- Python carrier.lower().replace(' ', '_') + "_pct", the dynamic dictionary
key the views write to (lower and replace written out on the character list). -/
def carrierKey (carrier : String) : String :=
  String.mk ((carrier.data.map Char.toLower).map (fun c => if c = ' ' then '_' else c)) ++ "_pct"

/-- Store a looked-up value under the dynamic carrier key; a row only has the
ups_pct/fedex_pct/dhl_pct fields, any other key is dropped. -/
def assignCarrier (row : Row) (carrier : String) (pct : Option ℚ) : Row :=
  if carrierKey carrier = "ups_pct" then { row with ups_pct := pct }
  else if carrierKey carrier = "fedex_pct" then { row with fedex_pct := pct }
  else if carrierKey carrier = "dhl_pct" then { row with dhl_pct := pct }
  else row

/-- Python min(all_mins) with the source's 0 default on empty data. -/
def globalMinOf (data : List Band) : ℚ := ((data.map (fun d => d.at_least_usd)).min?).getD 0

/-- Python max(all_maxs) with the source's 10 default on empty data. -/
def globalMaxOf (data : List Band) : ℚ := ((data.map (fun d => d.but_less_than_usd)).max?).getD 10

/-- Source guard: non-positive intervals fall back to 0.10, then
steps_per_dollar = int(round(1 / interval)), with a final fallback to 10. -/
def steps_per_dollar (interval : ℚ) : ℤ :=
  let interval := if interval ≤ 0 then 1/10 else interval
  let spd := rhe (1 / interval)
  if spd ≤ 0 then 10 else spd

/-- Python range(lo, hi) over integers. -/
def intRange (lo hi : ℤ) : List ℤ :=
  (List.range (hi - lo).toNat).map (fun i => lo + Int.ofNat i)

/-- A Python for-loop body that can raise, mapped over a list: the whole loop
aborts with none as soon as one element raises, otherwise all results are
collected in order. -/
def mapOrRaise {α β : Type} (f : α → Option β) : List α → Option (List β)
  | [] => some []
  | a :: as =>
    match f a with
    | none => none
    | some b => (mapOrRaise f as).map (fun bs => b :: bs)

/-- A Python for-loop folding over a row, where one iteration can raise and
abort the whole fold. -/
def foldOrRaise {α : Type} (f : Row → α → Option Row) : List α → Row → Option Row
  | [], row => some row
  | a :: as, row =>
    match f row a with
    | none => none
    | some row2 => foldOrRaise f as row2

/-- One grid cell of _create_normalized_view: the inner carrier loop at one
integer step, with each carrier value looked up by _find_exact_or_containing
(UPS through the scraped-or-formula path, which can raise). -/
def normalizedCell (data : List Band) (interval : ℚ) (allow_ups_formula : Bool)
    (market fuel_category : String) (step : ℤ) : Option Row :=
  let spd := steps_per_dollar interval
  let current := (step : ℚ) / (spd : ℚ)
  let next_val := ((step + 1 : ℤ) : ℚ) / (spd : ℚ)
  foldOrRaise (fun row p =>
    (if p.1 = "UPS" then
      get_ups_surcharge_for_range current next_val p.2 allow_ups_formula market fuel_category
    else some (_find_exact_or_containing current next_val p.2)).map
      (fun pct => assignCarrier row p.1 pct))
    (groupByCarrier data) ⟨current, next_val, none, none, none⟩

/-- Source _create_normalized_view: one row per grid step. The result is none
when the UPS formula lookup raises KeyError at some cell: Python propagates
the exception and the view call produces no rows at all. -/
def _create_normalized_view (data : List Band) (interval : ℚ) (allow_ups_formula : Bool)
    (market fuel_category : String) : Option (List Row) :=
  let spd := steps_per_dollar interval
  let min_step := ⌊globalMinOf data * (spd : ℚ)⌋
  let max_step := ⌈globalMaxOf data * (spd : ℚ)⌉
  mapOrRaise (normalizedCell data interval allow_ups_formula market fuel_category)
    (intRange min_step max_step)

/-- Lexicographic order on bound pairs: the order of Python sorted() on
2-tuples. -/
def pairLe (a b : ℚ × ℚ) : Prop := a.1 < b.1 ∨ (a.1 = b.1 ∧ a.2 ≤ b.2)

instance : DecidableRel pairLe := fun a b =>
  inferInstanceAs (Decidable (a.1 < b.1 ∨ (a.1 = b.1 ∧ a.2 ≤ b.2)))

/-- Python sorted(all_ranges) where all_ranges is the set of bound pairs of
the input bands. -/
def sortedRanges (data : List Band) : List (ℚ × ℚ) :=
  List.insertionSort pairLe
    ((data.map (fun it => (it.at_least_usd, it.but_less_than_usd))).dedup)

/-- The non-UPS lookup inlined in _create_overlap_view: the first band whose
interval contains min_val, or whose interval absorbs max_val from below. -/
def overlapCarrierLookup (min_val max_val : ℚ) (carrier_data : List Band) : Option ℚ :=
  (carrier_data.find? (fun it =>
      (decide (it.at_least_usd ≤ min_val) && decide (min_val < it.but_less_than_usd)) ||
      (decide (it.at_least_usd < max_val) && decide (max_val ≤ it.but_less_than_usd)))).map
    (fun it => it.surcharge_pct)

/-- Per-carrier value resolution of _create_overlap_view. Outer none is a
raised KeyError (only the UPS formula path can raise); some none is a null
value, which the caller skips. -/
def overlapCarrierValue (carrier : String) (min_val max_val : ℚ) (items : List Band)
    (allow_ups_formula : Bool) (market fuel_category : String) : Option (Option ℚ) :=
  if carrier = "UPS" then
    get_ups_surcharge_for_range min_val max_val items allow_ups_formula market fuel_category
  else some (overlapCarrierLookup min_val max_val items)

/-- The carrier_values dictionary built for one bound pair: carriers whose
value is null are not added, and a raised formula lookup aborts the whole
view (outer none). -/
def overlapValsFor (mn mx : ℚ) (allow_ups_formula : Bool) (market fuel_category : String) :
    List (String × List Band) → Option (List (String × ℚ))
  | [] => some []
  | p :: rest =>
    match overlapCarrierValue p.1 mn mx p.2 allow_ups_formula market fuel_category with
    | none => none
    | some none => overlapValsFor mn mx allow_ups_formula market fuel_category rest
    | some (some v) =>
      (overlapValsFor mn mx allow_ups_formula market fuel_category rest).map
        (fun vs => (p.1, v) :: vs)

/-- The row loop of _create_overlap_view over the sorted bound pairs: a pair
is kept only when every carrier of the data resolves a non-null value for it,
and a raised formula lookup aborts the loop with no rows at all. -/
def overlapRowsFrom (bc : List (String × List Band)) (allow_ups_formula : Bool)
    (market fuel_category : String) : List (ℚ × ℚ) → Option (List Row)
  | [] => some []
  | r :: rs =>
    match overlapValsFor r.1 r.2 allow_ups_formula market fuel_category bc with
    | none => none
    | some carrier_values =>
      if carrier_values.length = bc.length then
        (overlapRowsFrom bc allow_ups_formula market fuel_category rs).map
          (fun rows => (⟨r.1, r.2, List.lookup "UPS" carrier_values,
            List.lookup "FedEx" carrier_values, List.lookup "DHL" carrier_values⟩ : Row)
              :: rows)
      else overlapRowsFrom bc allow_ups_formula market fuel_category rs

/-- Source _create_overlap_view: iterate the sorted distinct bound pairs of
the input bands, keeping a pair only when every carrier of the data resolves
a non-null value for it. The result is none when the UPS formula lookup
raises KeyError at some pair: Python propagates the exception and the view
call produces no rows. -/
def _create_overlap_view (data : List Band) (allow_ups_formula : Bool)
    (market fuel_category : String) : Option (List Row) :=
  overlapRowsFrom (groupByCarrier data) allow_ups_formula market fuel_category
    (sortedRanges data)

/-! ## FormulaEngine claims (C4, C5) -/

/-- The ground/default regime of calculate_ups_surcharge resolved at the
("US", "UPS", "ground_domestic") formula. -/
theorem calc_ground_eq (price : ℚ) :
    calculate_ups_surcharge price "US" "ground_domestic"
      = some (if price ≥ 37/10 then 20 + (rhe ((price - 37/10) / (1/10)) : ℚ) * (1/2)
              else 20 - (rhe ((37/10 - price) / (1/10)) : ℚ) * (1/2)) := by
  have h1 : UPS_FORMULAS "US" "UPS" "ground_domestic" = some upsGroundUS := rfl
  unfold calculate_ups_surcharge
  rw [h1]
  have h2 : (("ground_domestic" : String) = "domestic_air") = False := by simp
  have h3 : (("ground_domestic" : String) = "international_air_export") = False := by simp
  have h4 : (("ground_domestic" : String) = "international_air_import") = False := by simp
  simp only [h2, h3, h4, false_and, false_or, if_false, upsGroundUS]
  norm_num
  exact (apply_ite some _ _ _).symm

/-- C4 (corrected). calculate_ups_surcharge returns a value for every finite
price whenever the fuel category is not one of the two international-air
categories, or the market is the one ("US") whose formulas are configured;
for an international category with any other market the fallback ground
formula lacks the increment keys and the Python code raises KeyError. -/
theorem calc_default_isSome (price : ℚ) (market fuel_category : String)
    (hdom : fuel_category ≠ "domestic_air")
    (hexp : fuel_category ≠ "international_air_export")
    (himp : fuel_category ≠ "international_air_import") :
    (calculate_ups_surcharge price market fuel_category).isSome = true := by
  unfold calculate_ups_surcharge
  simp only [hdom, hexp, himp, false_and, if_false, or_self]
  split_ifs <;> simp

/-- On the "DE" market the international-export lookup falls back to the US
ground formula, which has no increment keys, so the formula access raises
(none) at every price. -/
theorem calc_de_intl_none (price : ℚ) :
    calculate_ups_surcharge price "DE" "international_air_export" = none := by
  have h1 : UPS_FORMULAS "DE" "UPS" "international_air_export" = none := rfl
  have h2 : (("international_air_export" : String) = "domestic_air") = False := by simp
  have h3 : (UPS_FORMULAS "US" "UPS" "ground_domestic").getD {} = upsGroundUS := rfl
  unfold calculate_ups_surcharge
  rw [h1]
  simp only [h3, h2, false_and, if_false, upsGroundUS, eq_self_iff_true, true_or, if_true]

theorem C4_amended (price : ℚ) (market fuel_category : String)
    (h : (fuel_category ≠ "international_air_export" ∧
        fuel_category ≠ "international_air_import") ∨ market = "US") :
    (calculate_ups_surcharge price market fuel_category).isSome = true := by
  by_cases hexp : fuel_category = "international_air_export"
  · have hm : market = "US" := by
      rcases h with ⟨h1, _⟩ | hm
      · exact absurd hexp h1
      · exact hm
    subst hm
    subst hexp
    simp [calculate_ups_surcharge, UPS_FORMULAS, upsIntlAirUS]
  by_cases himp : fuel_category = "international_air_import"
  · have hm : market = "US" := by
      rcases h with ⟨_, h2⟩ | hm
      · exact absurd himp h2
      · exact hm
    subst hm
    subst himp
    simp [calculate_ups_surcharge, UPS_FORMULAS, upsIntlAirUS]
  by_cases hdom : fuel_category = "domestic_air"
  · subst hdom
    by_cases hm : market = "US"
    · subst hm
      have h1 : UPS_FORMULAS "US" "UPS" "domestic_air" = some upsDomesticAirUS := rfl
      unfold calculate_ups_surcharge
      rw [h1]
      simp [upsDomesticAirUS]
      split_ifs <;> simp
    · have h1 : UPS_FORMULAS market "UPS" "domestic_air" = none := by
        simp [UPS_FORMULAS, hm]
      have h2 : (UPS_FORMULAS "US" "UPS" "ground_domestic").getD {} = upsGroundUS := rfl
      unfold calculate_ups_surcharge
      rw [h1]
      simp only [h2]
      simp [upsGroundUS]
      split_ifs <;> simp
  · exact calc_default_isSome price market fuel_category hdom hexp himp

/-- C4, as stated, is false: for an international category with a market
other than "US" the formula lookup falls back to the ground formula, whose
dictionary has no "increment" key, so the access raises (modelled: none). -/
theorem C4_counterexample :
    calculate_ups_surcharge 2 "DE" "international_air_export" = none := by decide

/-- Witness for C4_amended: a non-international category on a foreign market,
and an international category on the "US" market, both resolve. -/
theorem C4_amended_witness :
    (calculate_ups_surcharge (5/2) "DE" "ground_domestic").isSome = true ∧
    (calculate_ups_surcharge 2 "US" "international_air_import").isSome = true := by
  constructor
  · exact C4_amended (5/2) "DE" "ground_domestic" (Or.inl ⟨by decide, by decide⟩)
  · exact C4_amended 2 "US" "international_air_import" (Or.inr rfl)

/-- C5 (corrected). For the ground/default regime: the surcharge is
non-decreasing in price above the threshold, equals the base surcharge 20
exactly at the threshold, and is also NON-DECREASING in price below the
threshold (the claim's non-increasing direction below the threshold is
reversed: a lower price gives a lower surcharge). -/
theorem C5_amended :
    (∀ p1 p2 : ℚ, 37/10 ≤ p1 → p1 ≤ p2 →
      (calculate_ups_surcharge p1 "US" "ground_domestic").getD 0
        ≤ (calculate_ups_surcharge p2 "US" "ground_domestic").getD 0) ∧
    calculate_ups_surcharge (37/10) "US" "ground_domestic" = some 20 ∧
    (∀ p1 p2 : ℚ, p1 ≤ p2 → p2 < 37/10 →
      (calculate_ups_surcharge p1 "US" "ground_domestic").getD 0
        ≤ (calculate_ups_surcharge p2 "US" "ground_domestic").getD 0) := by
  refine ⟨?_, ?_, ?_⟩
  · intro p1 p2 h1 h12
    rw [calc_ground_eq, calc_ground_eq]
    rw [if_pos (show p1 ≥ 37/10 by linarith), if_pos (show p2 ≥ 37/10 by linarith)]
    simp only [Option.getD_some]
    have harg : (p1 - 37/10) / (1/10) ≤ (p2 - 37/10) / (1/10) := by gcongr
    have hr := rhe_mono harg
    have hc : ((rhe ((p1 - 37/10) / (1/10)) : ℤ) : ℚ)
        ≤ ((rhe ((p2 - 37/10) / (1/10)) : ℤ) : ℚ) := by exact_mod_cast hr
    linarith
  · rw [calc_ground_eq]
    norm_num [rhe, Int.fract]
  · intro p1 p2 h12 h2
    rw [calc_ground_eq, calc_ground_eq]
    rw [if_neg (show ¬ p1 ≥ 37/10 by linarith), if_neg (show ¬ p2 ≥ 37/10 by linarith)]
    simp only [Option.getD_some]
    have harg : (37/10 - p2) / (1/10) ≤ (37/10 - p1) / (1/10) := by gcongr
    have hr := rhe_mono harg
    have hc : ((rhe ((37/10 - p2) / (1/10)) : ℤ) : ℚ)
        ≤ ((rhe ((37/10 - p1) / (1/10)) : ℤ) : ℚ) := by exact_mod_cast hr
    linarith

/-- C5, as stated, is false below the threshold: prices 3.60 and 3.69 are
both below 3.70, and the surcharge at 3.60 (19.5) is strictly smaller than
the surcharge at 3.69 (20.0), not larger. -/
theorem C5_counterexample :
    calculate_ups_surcharge (18/5) "US" "ground_domestic" = some (39/2) ∧
    calculate_ups_surcharge (369/100) "US" "ground_domestic" = some 20 ∧
    (18/5 : ℚ) ≤ 369/100 ∧ (369/100 : ℚ) < 37/10 ∧ ¬ ((39/2 : ℚ) ≥ 20) := by
  refine ⟨?_, ?_, by norm_num, by norm_num, by norm_num⟩
  · rw [calc_ground_eq]
    norm_num
    norm_num [rhe, Int.fract]
  · rw [calc_ground_eq]
    norm_num
    norm_num [rhe, Int.fract]

/-! ## Normalized-grid claims (C9, and helpers shared with C3) -/

theorem assignCarrier_at_least (row : Row) (c : String) (pct : Option ℚ) :
    (assignCarrier row c pct).at_least_usd = row.at_least_usd := by
  unfold assignCarrier
  split_ifs <;> rfl

theorem assignCarrier_but_less (row : Row) (c : String) (pct : Option ℚ) :
    (assignCarrier row c pct).but_less_than_usd = row.but_less_than_usd := by
  unfold assignCarrier
  split_ifs <;> rfl

theorem mapOrRaise_nil {α β : Type} (f : α → Option β) : mapOrRaise f [] = some [] := rfl

theorem mapOrRaise_cons_none {α β : Type} (f : α → Option β) (a : α) (as : List α)
    (h : f a = none) : mapOrRaise f (a :: as) = none := by
  simp only [mapOrRaise, h]

theorem mapOrRaise_cons_some {α β : Type} (f : α → Option β) (a : α) (as : List α) (b : β)
    (h : f a = some b) :
    mapOrRaise f (a :: as) = (mapOrRaise f as).map (fun bs => b :: bs) := by
  simp only [mapOrRaise, h]

theorem mapOrRaise_length {α β : Type} {f : α → Option β} :
    ∀ {l : List α} {out : List β}, mapOrRaise f l = some out → out.length = l.length := by
  intro l
  induction l with
  | nil =>
    intro out h
    rw [mapOrRaise_nil] at h
    cases h
    rfl
  | cons a as ih =>
    intro out h
    cases hfa : f a with
    | none =>
      rw [mapOrRaise_cons_none f a as hfa] at h
      exact absurd h (by simp)
    | some b =>
      rw [mapOrRaise_cons_some f a as b hfa] at h
      cases hrec : mapOrRaise f as with
      | none =>
        rw [hrec] at h
        exact absurd h (by simp)
      | some bs =>
        rw [hrec] at h
        simp only [Option.map_some'] at h
        cases h
        simp only [List.length_cons, ih hrec]

theorem mapOrRaise_getElem {α β : Type} {f : α → Option β} :
    ∀ {l : List α} {out : List β}, mapOrRaise f l = some out →
      ∀ i (hl : i < l.length) (ho : i < out.length), f (l[i]) = some (out[i]) := by
  intro l
  induction l with
  | nil =>
    intro out h i hl ho
    exact absurd hl (by simp)
  | cons a as ih =>
    intro out h i hl ho
    cases hfa : f a with
    | none =>
      rw [mapOrRaise_cons_none f a as hfa] at h
      exact absurd h (by simp)
    | some b =>
      rw [mapOrRaise_cons_some f a as b hfa] at h
      cases hrec : mapOrRaise f as with
      | none =>
        rw [hrec] at h
        exact absurd h (by simp)
      | some bs =>
        rw [hrec] at h
        simp only [Option.map_some'] at h
        cases h
        cases i with
        | zero => simpa using hfa
        | succ j =>
          simp only [List.getElem_cons_succ]
          have hl' : j < as.length := by
            simp only [List.length_cons] at hl
            omega
          have ho' : j < bs.length := by
            simp only [List.length_cons] at ho
            omega
          exact ih hrec j hl' ho'

theorem mapOrRaise_isSome {α β : Type} {f : α → Option β} :
    ∀ {l : List α}, (∀ a ∈ l, (f a).isSome = true) → (mapOrRaise f l).isSome = true := by
  intro l
  induction l with
  | nil => intro _; rfl
  | cons a as ih =>
    intro h
    rcases Option.isSome_iff_exists.1 (h a (List.mem_cons_self a as)) with ⟨b, hb⟩
    rw [mapOrRaise_cons_some f a as b hb]
    rcases Option.isSome_iff_exists.1 (ih (fun x hx => h x (List.mem_cons_of_mem _ hx)))
      with ⟨bs, hbs⟩
    rw [hbs]
    rfl

theorem mapOrRaise_eq_none_of_mem {α β : Type} {f : α → Option β} {l : List α} {a : α}
    (ha : a ∈ l) (hfa : f a = none) : mapOrRaise f l = none := by
  induction l with
  | nil => exact absurd ha (by simp)
  | cons x xs ih =>
    rcases List.mem_cons.1 ha with rfl | ha'
    · exact mapOrRaise_cons_none _ _ _ hfa
    · cases hfx : f x with
      | none => exact mapOrRaise_cons_none f x xs hfx
      | some b =>
        rw [mapOrRaise_cons_some f x xs b hfx, ih ha']
        rfl

theorem foldOrRaise_nil {α : Type} (f : Row → α → Option Row) (row : Row) :
    foldOrRaise f [] row = some row := rfl

theorem foldOrRaise_cons_none {α : Type} (f : Row → α → Option Row) (a : α) (as : List α)
    (row : Row) (h : f row a = none) : foldOrRaise f (a :: as) row = none := by
  simp only [foldOrRaise, h]

theorem foldOrRaise_cons_some {α : Type} (f : Row → α → Option Row) (a : α) (as : List α)
    (row row2 : Row) (h : f row a = some row2) :
    foldOrRaise f (a :: as) row = foldOrRaise f as row2 := by
  simp only [foldOrRaise, h]

theorem foldOrRaise_bounds {α : Type} {f : Row → α → Option Row}
    (hf : ∀ (row : Row) (a : α) (r2 : Row), f row a = some r2 →
      r2.at_least_usd = row.at_least_usd ∧ r2.but_less_than_usd = row.but_less_than_usd) :
    ∀ (l : List α) (row r : Row), foldOrRaise f l row = some r →
      r.at_least_usd = row.at_least_usd ∧ r.but_less_than_usd = row.but_less_than_usd := by
  intro l
  induction l with
  | nil =>
    intro row r h
    rw [foldOrRaise_nil] at h
    cases h
    exact ⟨rfl, rfl⟩
  | cons a as ih =>
    intro row r h
    cases hfa : f row a with
    | none =>
      rw [foldOrRaise_cons_none f a as row hfa] at h
      exact absurd h (by simp)
    | some row2 =>
      rw [foldOrRaise_cons_some f a as row row2 hfa] at h
      have h2 := ih row2 r h
      have h1 := hf row a row2 hfa
      exact ⟨h2.1.trans h1.1, h2.2.trans h1.2⟩

theorem foldOrRaise_isSome {α : Type} {f : Row → α → Option Row} :
    ∀ (l : List α), (∀ (row : Row) (a : α), a ∈ l → (f row a).isSome = true) →
      ∀ row : Row, (foldOrRaise f l row).isSome = true := by
  intro l
  induction l with
  | nil => intro _ row; rfl
  | cons a as ih =>
    intro h row
    rcases Option.isSome_iff_exists.1 (h row a (List.mem_cons_self a as)) with ⟨row2, hrow2⟩
    rw [foldOrRaise_cons_some f a as row row2 hrow2]
    exact ih (fun r x hx => h r x (List.mem_cons_of_mem _ hx)) row2

theorem length_intRange (lo hi : ℤ) : (intRange lo hi).length = (hi - lo).toNat := by
  simp only [intRange, List.length_map, List.length_range]

theorem getElem_intRange (lo hi : ℤ) (i : ℕ) (h : i < (intRange lo hi).length) :
    (intRange lo hi)[i] = lo + i := by
  simp only [intRange, List.getElem_map, List.getElem_range]
  rfl

theorem mem_intRange_self (lo hi : ℤ) (h : lo < hi) : lo ∈ intRange lo hi := by
  unfold intRange
  refine List.mem_map.2 ⟨0, ?_, by simp⟩
  rw [List.mem_range]
  omega

instance : Std.Antisymm (fun x1 x2 : ℚ => x1 ≤ x2) where
  antisymm h1 h2 := le_antisymm h1 h2

theorem min?_spec {xs : List ℚ} {a : ℚ} (h : xs.min? = some a) : a ∈ xs ∧ ∀ b ∈ xs, a ≤ b :=
  (List.min?_eq_some_iff (fun _ => le_refl _) (fun a b => min_choice a b)
    (fun _ _ _ => le_min_iff)).1 h

theorem max?_spec {xs : List ℚ} {a : ℚ} (h : xs.max? = some a) : a ∈ xs ∧ ∀ b ∈ xs, b ≤ a :=
  (List.max?_eq_some_iff (fun _ => le_refl _) (fun a b => max_choice a b)
    (fun _ _ _ => max_le_iff)).1 h

theorem spd_pos (interval : ℚ) : 0 < steps_per_dollar interval := by
  simp only [steps_per_dollar]
  split_ifs <;> omega

/-- A successful assignCarrier step of the cell loop preserves the bounds. -/
theorem assignMap_bounds {o : Option (Option ℚ)} {row r2 : Row} {c : String}
    (h : o.map (fun pct => assignCarrier row c pct) = some r2) :
    r2.at_least_usd = row.at_least_usd ∧ r2.but_less_than_usd = row.but_less_than_usd := by
  rcases Option.map_eq_some'.1 h with ⟨pct, _, hr⟩
  rw [← hr]
  exact ⟨assignCarrier_at_least _ _ _, assignCarrier_but_less _ _ _⟩

/-- A successfully computed cell carries the bounds of its grid step. -/
theorem normalizedCell_bounds (data : List Band) (interval : ℚ) (allow : Bool)
    (market fuel_category : String) (step : ℤ) (r : Row)
    (h : normalizedCell data interval allow market fuel_category step = some r) :
    r.at_least_usd = (step : ℚ) / (steps_per_dollar interval : ℚ) ∧
    r.but_less_than_usd = ((step + 1 : ℤ) : ℚ) / (steps_per_dollar interval : ℚ) := by
  simp only [normalizedCell] at h
  exact foldOrRaise_bounds (fun row a r2 hh => assignMap_bounds hh)
    (groupByCarrier data) _ r h

/-- A cell over carrier groups without a UPS key cannot raise. -/
theorem normalizedCell_isSome_of_no_ups (data : List Band) (interval : ℚ) (allow : Bool)
    (market fuel_category : String) (step : ℤ)
    (h : ∀ p ∈ groupByCarrier data, ¬ p.1 = "UPS") :
    (normalizedCell data interval allow market fuel_category step).isSome = true := by
  simp only [normalizedCell]
  apply foldOrRaise_isSome
  intro row p hp
  rw [if_neg (h p hp)]
  rfl

/-- The whole normalized view succeeds when the data has no UPS carrier. -/
theorem normalized_view_isSome_of_no_ups (data : List Band) (interval : ℚ) (allow : Bool)
    (market fuel_category : String)
    (h : ∀ p ∈ groupByCarrier data, ¬ p.1 = "UPS") :
    (_create_normalized_view data interval allow market fuel_category).isSome = true := by
  simp only [_create_normalized_view]
  apply mapOrRaise_isSome
  intro step _
  exact normalizedCell_isSome_of_no_ups data interval allow market fuel_category step h

/-- The grid geometry of a successful normalized view: one row per integer
step between the grid-aligned bounds, with consecutive exact bounds. -/
theorem normalized_rows_spec (data : List Band) (interval : ℚ) (allow : Bool)
    (market fuel_category : String) (rows : List Row)
    (hrows : _create_normalized_view data interval allow market fuel_category = some rows) :
    (rows.length = ((⌈globalMaxOf data * (steps_per_dollar interval : ℚ)⌉
        - ⌊globalMinOf data * (steps_per_dollar interval : ℚ)⌋).toNat)) ∧
    ∀ i (h : i < rows.length),
      (rows[i].at_least_usd
        = ((⌊globalMinOf data * (steps_per_dollar interval : ℚ)⌋ + (i : ℤ) : ℤ) : ℚ)
            / (steps_per_dollar interval : ℚ)) ∧
      (rows[i].but_less_than_usd
        = ((⌊globalMinOf data * (steps_per_dollar interval : ℚ)⌋ + (i : ℤ) + 1 : ℤ) : ℚ)
            / (steps_per_dollar interval : ℚ)) := by
  simp only [_create_normalized_view] at hrows
  have hlen := mapOrRaise_length hrows
  rw [length_intRange] at hlen
  refine ⟨hlen, ?_⟩
  intro i h
  have hi : i < (intRange ⌊globalMinOf data * (steps_per_dollar interval : ℚ)⌋
      ⌈globalMaxOf data * (steps_per_dollar interval : ℚ)⌉).length := by
    rw [length_intRange]
    omega
  have hcell := mapOrRaise_getElem hrows i hi h
  rw [getElem_intRange] at hcell
  exact normalizedCell_bounds data interval allow market fuel_category _ _ hcell

/-- C9 (corrected). Whenever the normalized view returns rows at all (a UPS
formula KeyError at any cell instead aborts the view, which then produces no
rows), those rows form a gapless, non-overlapping partition into consecutive
grid cells; but the partition bounds are the grid-aligned values
floor(global_min*spd)/spd and ceil(global_max*spd)/spd (spd = grid steps per
currency unit), not the integer floor(min at_least) / ceil(max but_less_than)
of the claim; the rows cover the observed range from both sides. -/
theorem C9_amended (data : List Band) (interval : ℚ) (allow : Bool)
    (market fuel_category : String) (hne : data ≠ [])
    (hvalid : ∀ b ∈ data, b.at_least_usd < b.but_less_than_usd)
    (rows : List Row)
    (hrows : _create_normalized_view data interval allow market fuel_category = some rows) :
    (rows.length
      = ((⌈globalMaxOf data * (steps_per_dollar interval : ℚ)⌉
          - ⌊globalMinOf data * (steps_per_dollar interval : ℚ)⌋).toNat)) ∧
    (∀ i (h : i < rows.length),
      (rows[i].at_least_usd
        = ((⌊globalMinOf data * (steps_per_dollar interval : ℚ)⌋ + (i : ℤ) : ℤ) : ℚ)
            / (steps_per_dollar interval : ℚ)) ∧
      (rows[i].but_less_than_usd
        = ((⌊globalMinOf data * (steps_per_dollar interval : ℚ)⌋ + (i : ℤ) + 1 : ℤ) : ℚ)
            / (steps_per_dollar interval : ℚ))) ∧
    0 < steps_per_dollar interval ∧
    ⌊globalMinOf data * (steps_per_dollar interval : ℚ)⌋
      < ⌈globalMaxOf data * (steps_per_dollar interval : ℚ)⌉ ∧
    ((⌊globalMinOf data * (steps_per_dollar interval : ℚ)⌋ : ℚ)
        / (steps_per_dollar interval : ℚ) ≤ globalMinOf data) ∧
    (globalMaxOf data ≤ (⌈globalMaxOf data * (steps_per_dollar interval : ℚ)⌉ : ℚ)
        / (steps_per_dollar interval : ℚ)) := by
  obtain ⟨b0, hb0⟩ := List.exists_mem_of_ne_nil data hne
  have hspd : 0 < steps_per_dollar interval := spd_pos interval
  have hspdQ : (0 : ℚ) < (steps_per_dollar interval : ℚ) := by exact_mod_cast hspd
  have hmin : globalMinOf data ≤ b0.at_least_usd := by
    unfold globalMinOf
    rcases hm : (data.map (fun d => d.at_least_usd)).min? with _ | m
    · exact absurd (List.map_eq_nil_iff.1 (List.min?_eq_none_iff.1 hm)) hne
    · rw [hm]
      exact (min?_spec hm).2 _ (List.mem_map_of_mem _ hb0)
  have hmax : b0.but_less_than_usd ≤ globalMaxOf data := by
    unfold globalMaxOf
    rcases hm : (data.map (fun d => d.but_less_than_usd)).max? with _ | m
    · exact absurd (List.map_eq_nil_iff.1 (List.max?_eq_none_iff.1 hm)) hne
    · rw [hm]
      exact (max?_spec hm).2 _ (List.mem_map_of_mem _ hb0)
  have hlt : globalMinOf data < globalMaxOf data :=
    lt_of_le_of_lt hmin (lt_of_lt_of_le (hvalid b0 hb0) hmax)
  have hltm : globalMinOf data * (steps_per_dollar interval : ℚ)
      < globalMaxOf data * (steps_per_dollar interval : ℚ) :=
    mul_lt_mul_of_pos_right hlt hspdQ
  have hstep : ⌊globalMinOf data * (steps_per_dollar interval : ℚ)⌋
      < ⌈globalMaxOf data * (steps_per_dollar interval : ℚ)⌉ := by
    have h1 := Int.floor_le (globalMinOf data * (steps_per_dollar interval : ℚ))
    have h2 := Int.le_ceil (globalMaxOf data * (steps_per_dollar interval : ℚ))
    exact_mod_cast lt_of_le_of_lt h1 (lt_of_lt_of_le hltm h2)
  have hne0 : (steps_per_dollar interval : ℚ) ≠ 0 := ne_of_gt hspdQ
  refine ⟨(normalized_rows_spec data interval allow market fuel_category rows hrows).1,
    (normalized_rows_spec data interval allow market fuel_category rows hrows).2,
    hspd, hstep, ?_, ?_⟩
  · calc (⌊globalMinOf data * (steps_per_dollar interval : ℚ)⌋ : ℚ)
          / (steps_per_dollar interval : ℚ)
        ≤ (globalMinOf data * (steps_per_dollar interval : ℚ))
          / (steps_per_dollar interval : ℚ) := by
          gcongr
          exact Int.floor_le _
    _ = globalMinOf data := mul_div_cancel_right₀ _ hne0
  · calc globalMaxOf data
        = (globalMaxOf data * (steps_per_dollar interval : ℚ))
          / (steps_per_dollar interval : ℚ) := (mul_div_cancel_right₀ _ hne0).symm
    _ ≤ (⌈globalMaxOf data * (steps_per_dollar interval : ℚ)⌉ : ℚ)
          / (steps_per_dollar interval : ℚ) := by
          gcongr
          exact Int.le_ceil _

/-- The lower bounds of a successful normalized view's rows are exactly the
grid multiples. -/
theorem normalized_map_at_least (data : List Band) (interval : ℚ) (allow : Bool)
    (market fuel_category : String) (rows : List Row)
    (hrows : _create_normalized_view data interval allow market fuel_category = some rows) :
    rows.map (fun r => r.at_least_usd)
      = (intRange ⌊globalMinOf data * (steps_per_dollar interval : ℚ)⌋
          ⌈globalMaxOf data * (steps_per_dollar interval : ℚ)⌉).map
          (fun (step : ℤ) => (step : ℚ) / (steps_per_dollar interval : ℚ)) := by
  simp only [_create_normalized_view] at hrows
  apply List.ext_getElem
  · rw [List.length_map, List.length_map, mapOrRaise_length hrows]
  · intro i h1 h2
    rw [List.getElem_map, List.getElem_map, getElem_intRange]
    have hi : i < (intRange ⌊globalMinOf data * (steps_per_dollar interval : ℚ)⌋
        ⌈globalMaxOf data * (steps_per_dollar interval : ℚ)⌉).length := by
      simpa using h2
    have hio : i < rows.length := by
      simpa using h1
    have hcell := mapOrRaise_getElem hrows i hi hio
    rw [getElem_intRange] at hcell
    exact (normalizedCell_bounds data interval allow market fuel_category _ _ hcell).1

theorem steps_per_dollar_tenth : steps_per_dollar (1/10) = 10 := by
  unfold steps_per_dollar
  norm_num
  rw [show (10 : ℚ) = ((10 : ℤ) : ℚ) by norm_num, rhe_intCast]
  norm_num

/-- A band whose lower bound 2.35 is on the 0.10 grid but not an integer. -/
def cxBandNarrow : Band := ⟨"FedEx", 47/20, 12/5, 18⟩

/-- On FedEx-only data the normalized view cannot raise, so it returns rows. -/
theorem cxNarrow_view_some :
    ∃ rows, _create_normalized_view [cxBandNarrow] (1/10) true "US" "ground_domestic"
      = some rows :=
  Option.isSome_iff_exists.1 (normalized_view_isSome_of_no_ups [cxBandNarrow] (1/10) true
    "US" "ground_domestic" (by
      intro p hp
      rw [show groupByCarrier [cxBandNarrow] = [("FedEx", [cxBandNarrow])] from rfl] at hp
      simp only [List.mem_singleton] at hp
      subst hp
      decide))

/-- C9, as stated, is false: with one band from 2.35 to 2.40 and a 0.10
interval, the view returns rows (no UPS carrier means no formula exception),
and the single row starts at 2.30 = floor(2.35*10)/10, not at
floor(min at_least) = 2. -/
theorem C9_counterexample :
    (Option.map (List.map (fun r => r.at_least_usd))
        (_create_normalized_view [cxBandNarrow] (1/10) true "US" "ground_domestic"))
      = some [23/10] ∧
    ⌊(47/20 : ℚ)⌋ = 2 ∧ ((23/10 : ℚ) ≠ 2) ∧
    globalMinOf [cxBandNarrow] = 47/20 := by
  refine ⟨?_, by norm_num, by norm_num, rfl⟩
  obtain ⟨rows, hrows⟩ := cxNarrow_view_some
  rw [hrows, Option.map_some']
  congr 1
  rw [normalized_map_at_least [cxBandNarrow] (1/10) true "US" "ground_domestic" rows hrows,
    steps_per_dollar_tenth]
  rw [show globalMinOf [cxBandNarrow] = 47/20 from rfl,
    show globalMaxOf [cxBandNarrow] = 12/5 from rfl]
  rw [show ⌊(47/20 : ℚ) * ((10 : ℤ) : ℚ)⌋ = 23 by norm_num]
  rw [show ⌈(12/5 : ℚ) * ((10 : ℤ) : ℚ)⌉ = 24 by
    rw [show (12/5 : ℚ) * ((10 : ℤ) : ℚ) = ((24 : ℤ) : ℚ) by norm_num]
    exact Int.ceil_intCast 24]
  norm_num [intRange, List.range_succ]

/-- Witness for C9_amended at a concrete band list and interval where the
view succeeds. -/
theorem C9_amended_witness :
    (Option.map List.length
        (_create_normalized_view [cxBandNarrow] (1/10) true "US" "ground_domestic"))
      = some ((⌈globalMaxOf [cxBandNarrow] * (steps_per_dollar (1/10) : ℚ)⌉
          - ⌊globalMinOf [cxBandNarrow] * (steps_per_dollar (1/10) : ℚ)⌋).toNat) ∧
    0 < steps_per_dollar (1/10 : ℚ) ∧
    ((⌊globalMinOf [cxBandNarrow] * (steps_per_dollar (1/10) : ℚ)⌋ : ℚ)
        / (steps_per_dollar (1/10) : ℚ) ≤ globalMinOf [cxBandNarrow]) := by
  obtain ⟨rows, hrows⟩ := cxNarrow_view_some
  have h := C9_amended [cxBandNarrow] (1/10) true "US" "ground_domestic" (by simp)
    (by
      intro b hb
      simp only [List.mem_singleton] at hb
      subst hb
      norm_num [cxBandNarrow]) rows hrows
  refine ⟨?_, h.2.2.1, h.2.2.2.2.1⟩
  rw [hrows, Option.map_some', h.1]

/-- A single catch-all UPS band: no scraped value is ever found for a fine
range, so each cell goes through the formula. -/
def cxBandUps : Band := ⟨"UPS", 0, 5, 10⟩

theorem cxUps_find_none :
    _find_exact_or_containing 0 (1/10) [cxBandUps] = none := by
  simp only [_find_exact_or_containing, fineBandsOf, overlappingOf, cxBandUps, List.find?,
    List.filter, List.map]
  norm_num

theorem cxUps_get_none :
    get_ups_surcharge_for_range 0 (1/10) [cxBandUps] true "DE" "international_air_export"
      = none := by
  simp only [get_ups_surcharge_for_range, cxUps_find_none, eq_self_iff_true, if_true,
    calc_de_intl_none, Option.map_none']

theorem cxUps_cell_none :
    normalizedCell [cxBandUps] (1/10) true "DE" "international_air_export" 0 = none := by
  have hget : get_ups_surcharge_for_range
      (((0 : ℤ) : ℚ) / ((steps_per_dollar (1/10) : ℤ) : ℚ))
      ((((0 : ℤ) + 1 : ℤ) : ℚ) / ((steps_per_dollar (1/10) : ℤ) : ℚ)) [cxBandUps] true "DE"
      "international_air_export" = none := by
    rw [steps_per_dollar_tenth]
    rw [show ((0 : ℤ) : ℚ) / ((10 : ℤ) : ℚ) = 0 by norm_num]
    rw [show (((0 : ℤ) + 1 : ℤ) : ℚ) / ((10 : ℤ) : ℚ) = 1/10 by norm_num]
    exact cxUps_get_none
  simp only [normalizedCell]
  rw [show groupByCarrier [cxBandUps] = [("UPS", [cxBandUps])] from rfl]
  apply foldOrRaise_cons_none
  have hc : ((("UPS", [cxBandUps]) : String × List Band).1 = "UPS") = True := by simp
  simp only [hc, if_true, hget, Option.map_none']

/-- The input family rejected by the formula engine aborts the whole
normalized view: with UPS data on the "DE" market and an international
category the first cell raises and the view returns no rows, exactly as the
Python call propagates the KeyError. -/
theorem normalized_view_none_on_formula_error :
    _create_normalized_view [cxBandUps] (1/10) true "DE" "international_air_export"
      = none := by
  simp only [_create_normalized_view]
  refine mapOrRaise_eq_none_of_mem ?_ cxUps_cell_none
  rw [steps_per_dollar_tenth]
  rw [show globalMinOf [cxBandUps] = 0 from rfl, show globalMaxOf [cxBandUps] = 5 from rfl]
  rw [show ⌊(0 : ℚ) * ((10 : ℤ) : ℚ)⌋ = 0 by norm_num]
  rw [show ⌈(5 : ℚ) * ((10 : ℤ) : ℚ)⌉ = 50 by
    rw [show (5 : ℚ) * ((10 : ℤ) : ℚ) = ((50 : ℤ) : ℚ) by norm_num]
    exact Int.ceil_intCast 50]
  exact mem_intRange_self 0 50 (by norm_num)

/-! ## Band-selection tie-break claim (C2) -/

theorem mem_fineBandsOf {min_val max_val : ℚ} {carrier_data : List Band} {p : ℚ × ℚ} :
    p ∈ fineBandsOf min_val max_val carrier_data ↔
      ∃ b ∈ carrier_data, (b.at_least_usd < max_val ∧ min_val < b.but_less_than_usd) ∧
        b.but_less_than_usd - b.at_least_usd ≤ 1/2 ∧
        p = (b.but_less_than_usd - b.at_least_usd, b.surcharge_pct) := by
  simp only [fineBandsOf, overlappingOf, List.mem_map, List.mem_filter,
    Bool.and_eq_true, decide_eq_true_eq, Bool.not_eq_eq_eq_not, Bool.not_true,
    decide_eq_false_iff_not, not_lt]
  constructor
  · rintro ⟨b, ⟨⟨hb, h1, h2⟩, h3⟩, rfl⟩
    exact ⟨b, hb, ⟨h1, h2⟩, h3, rfl⟩
  · rintro ⟨b, hb, ⟨h1, h2⟩, h3, rfl⟩
    exact ⟨b, ⟨⟨hb, h1, h2⟩, h3⟩, rfl⟩

/-- C2 (corrected). With no exact-bounds match: when some overlapping band is
fine (width at most 0.50), the lookup returns the surcharge of a narrowest
such band; but when only catch-all bands (width above 0.50) overlap, the
lookup returns none — catch-all bands are never used as a fallback (the
source comment calls them unreliable), contrary to the claim. -/
theorem C2_amended (min_val max_val : ℚ) (carrier_data : List Band)
    (hexact : ∀ b ∈ carrier_data,
      ¬(b.at_least_usd = min_val ∧ b.but_less_than_usd = max_val)) :
    ((∃ b ∈ carrier_data, (b.at_least_usd < max_val ∧ min_val < b.but_less_than_usd) ∧
        b.but_less_than_usd - b.at_least_usd ≤ 1/2) →
      ∃ b ∈ carrier_data, (b.at_least_usd < max_val ∧ min_val < b.but_less_than_usd) ∧
        b.but_less_than_usd - b.at_least_usd ≤ 1/2 ∧
        _find_exact_or_containing min_val max_val carrier_data = some b.surcharge_pct ∧
        ∀ b' ∈ carrier_data, b'.at_least_usd < max_val → min_val < b'.but_less_than_usd →
          b'.but_less_than_usd - b'.at_least_usd ≤ 1/2 →
          b.but_less_than_usd - b.at_least_usd ≤ b'.but_less_than_usd - b'.at_least_usd) ∧
    ((∀ b ∈ carrier_data, b.at_least_usd < max_val → min_val < b.but_less_than_usd →
        1/2 < b.but_less_than_usd - b.at_least_usd) →
      _find_exact_or_containing min_val max_val carrier_data = none) := by
  have hfind : carrier_data.find? (fun it =>
      decide (it.at_least_usd = min_val) && decide (it.but_less_than_usd = max_val)) = none := by
    rw [List.find?_eq_none]
    intro b hb
    simp only [Bool.and_eq_true, decide_eq_true_eq]
    exact hexact b hb
  constructor
  · rintro ⟨b0, hb0, hov0, hw0⟩
    rcases hsort : List.insertionSort widthLe (fineBandsOf min_val max_val carrier_data)
      with _ | ⟨p, rest⟩
    · exfalso
      have hperm := List.perm_insertionSort widthLe (fineBandsOf min_val max_val carrier_data)
      rw [hsort] at hperm
      have hnil := hperm.symm.eq_nil
      have hmem : (b0.but_less_than_usd - b0.at_least_usd, b0.surcharge_pct)
          ∈ fineBandsOf min_val max_val carrier_data :=
        mem_fineBandsOf.2 ⟨b0, hb0, hov0, hw0, rfl⟩
      rw [hnil] at hmem
      exact absurd hmem (List.not_mem_nil _)
    · have hpmem : p ∈ fineBandsOf min_val max_val carrier_data := by
        have hx : p ∈ List.insertionSort widthLe (fineBandsOf min_val max_val carrier_data) := by
          rw [hsort]
          exact List.mem_cons_self _ _
        exact (List.mem_insertionSort _).1 hx
      rcases mem_fineBandsOf.1 hpmem with ⟨b1, hb1, hov1, hw1, hp⟩
      refine ⟨b1, hb1, hov1, hw1, ?_, ?_⟩
      · unfold _find_exact_or_containing
        rw [hfind, hsort, hp]
      · intro b' hb' h1 h2 h3
        have hmem' : (b'.but_less_than_usd - b'.at_least_usd, b'.surcharge_pct)
            ∈ fineBandsOf min_val max_val carrier_data :=
          mem_fineBandsOf.2 ⟨b', hb', ⟨h1, h2⟩, h3, rfl⟩
        have hx : (b'.but_less_than_usd - b'.at_least_usd, b'.surcharge_pct) ∈ p :: rest := by
          rw [← hsort]
          exact (List.mem_insertionSort _).2 hmem'
        rcases List.mem_cons.1 hx with heq | hmemrest
        · rw [hp] at heq
          rw [show b1.but_less_than_usd - b1.at_least_usd
              = b'.but_less_than_usd - b'.at_least_usd from congrArg Prod.fst heq.symm]
        · have hs := List.sorted_insertionSort widthLe (fineBandsOf min_val max_val carrier_data)
          rw [hsort] at hs
          have := (List.sorted_cons.1 hs).1 _ hmemrest
          rw [hp] at this
          exact this
  · intro hwide
    have hnil : fineBandsOf min_val max_val carrier_data = [] := by
      rw [List.eq_nil_iff_forall_not_mem]
      intro p hp
      rcases mem_fineBandsOf.1 hp with ⟨b, hb, ⟨h1, h2⟩, h3, _⟩
      exact absurd (hwide b hb h1 h2) (not_lt.2 h3)
    unfold _find_exact_or_containing
    rw [hfind, hnil]
    rfl

/-- A catch-all band (width 5.00) for the C2 instances. -/
def cxBandWide : Band := ⟨"FedEx", 0, 5, 10⟩

/-- A fine band (width 0.21) for the C2 witness. -/
def cxBandFine : Band := ⟨"FedEx", 199/100, 11/5, 7⟩

/-- C2, as stated, is false: the interval from 2.00 to 2.10 has no exact
match in the single-band list and its only overlapping band is a catch-all
(width 5.00 above 0.50), yet the lookup returns none, not that band's
surcharge 10. -/
theorem C2_counterexample :
    _find_exact_or_containing 2 (21/10) [cxBandWide] = none ∧
    cxBandWide.at_least_usd < 21/10 ∧ (2 : ℚ) < cxBandWide.but_less_than_usd ∧
    (1/2 : ℚ) < cxBandWide.but_less_than_usd - cxBandWide.at_least_usd ∧
    ¬(cxBandWide.at_least_usd = 2 ∧ cxBandWide.but_less_than_usd = 21/10) := by
  refine ⟨?_, by norm_num [cxBandWide], by norm_num [cxBandWide], by norm_num [cxBandWide],
    by norm_num [cxBandWide]⟩
  simp only [_find_exact_or_containing, fineBandsOf, overlappingOf, cxBandWide,
    List.find?, List.filter]
  norm_num [widthLe, List.insertionSort]

/-- Witness for C2_amended: the narrowest-fine-band side on a one-band list,
and the catch-all-only side on the wide band. -/
theorem C2_amended_witness :
    (∃ b ∈ [cxBandFine],
      (b.at_least_usd < 21/10 ∧ (2 : ℚ) < b.but_less_than_usd) ∧
      b.but_less_than_usd - b.at_least_usd ≤ 1/2 ∧
      _find_exact_or_containing 2 (21/10) [cxBandFine] = some b.surcharge_pct ∧
      ∀ b' ∈ [cxBandFine], b'.at_least_usd < 21/10 → (2 : ℚ) < b'.but_less_than_usd →
        b'.but_less_than_usd - b'.at_least_usd ≤ 1/2 →
        b.but_less_than_usd - b.at_least_usd ≤ b'.but_less_than_usd - b'.at_least_usd) ∧
    _find_exact_or_containing 2 (21/10) [cxBandWide] = none := by
  constructor
  · refine (C2_amended 2 (21/10) [cxBandFine] ?_).1 ⟨cxBandFine, by simp, ?_, ?_⟩
    · intro b hb
      simp only [List.mem_singleton] at hb
      subst hb
      norm_num [cxBandFine]
    · norm_num [cxBandFine]
    · norm_num [cxBandFine]
  · refine (C2_amended 2 (21/10) [cxBandWide] ?_).2 ?_
    · intro b hb
      simp only [List.mem_singleton] at hb
      subst hb
      norm_num [cxBandWide]
    · intro b hb
      simp only [List.mem_singleton] at hb
      subst hb
      norm_num [cxBandWide]

/-! ## Overlap-view claims (C3) -/

theorem overlapValsFor_nil (mn mx : ℚ) (allow : Bool) (market fc : String) :
    overlapValsFor mn mx allow market fc [] = some [] := rfl

theorem overlapValsFor_cons_raise (mn mx : ℚ) (allow : Bool) (market fc : String)
    (p : String × List Band) (rest : List (String × List Band))
    (h : overlapCarrierValue p.1 mn mx p.2 allow market fc = none) :
    overlapValsFor mn mx allow market fc (p :: rest) = none := by
  simp only [overlapValsFor, h]

theorem overlapValsFor_cons_null (mn mx : ℚ) (allow : Bool) (market fc : String)
    (p : String × List Band) (rest : List (String × List Band))
    (h : overlapCarrierValue p.1 mn mx p.2 allow market fc = some none) :
    overlapValsFor mn mx allow market fc (p :: rest)
      = overlapValsFor mn mx allow market fc rest := by
  simp only [overlapValsFor, h]

theorem overlapValsFor_cons_val (mn mx : ℚ) (allow : Bool) (market fc : String)
    (p : String × List Band) (rest : List (String × List Band)) (v : ℚ)
    (h : overlapCarrierValue p.1 mn mx p.2 allow market fc = some (some v)) :
    overlapValsFor mn mx allow market fc (p :: rest)
      = (overlapValsFor mn mx allow market fc rest).map (fun vs => (p.1, v) :: vs) := by
  simp only [overlapValsFor, h]

theorem overlapValsFor_length_le (mn mx : ℚ) (allow : Bool) (market fc : String) :
    ∀ (bc : List (String × List Band)) (cvs : List (String × ℚ)),
      overlapValsFor mn mx allow market fc bc = some cvs → cvs.length ≤ bc.length := by
  intro bc
  induction bc with
  | nil =>
    intro cvs h
    rw [overlapValsFor_nil] at h
    cases h
    exact Nat.le_refl 0
  | cons p rest ih =>
    intro cvs h
    rcases hv : overlapCarrierValue p.1 mn mx p.2 allow market fc with _ | (_ | v)
    · rw [overlapValsFor_cons_raise mn mx allow market fc p rest hv] at h
      exact absurd h (by simp)
    · rw [overlapValsFor_cons_null mn mx allow market fc p rest hv] at h
      exact Nat.le_trans (ih cvs h) (Nat.le_succ _)
    · rw [overlapValsFor_cons_val mn mx allow market fc p rest v hv] at h
      rcases hr : overlapValsFor mn mx allow market fc rest with _ | vs
      · rw [hr] at h
        exact absurd h (by simp)
      · rw [hr] at h
        simp only [Option.map_some'] at h
        cases h
        simp only [List.length_cons]
        exact Nat.succ_le_succ (ih vs hr)

/-- A full-length carrier_values dictionary means every carrier of the data
resolved a non-null value (no skips), given that the collection succeeded. -/
theorem overlapValsFor_length_iff (mn mx : ℚ) (allow : Bool) (market fc : String) :
    ∀ (bc : List (String × List Band)) (cvs : List (String × ℚ)),
      overlapValsFor mn mx allow market fc bc = some cvs →
      (cvs.length = bc.length ↔
        ∀ p ∈ bc, ∃ v : ℚ,
          overlapCarrierValue p.1 mn mx p.2 allow market fc = some (some v)) := by
  intro bc
  induction bc with
  | nil =>
    intro cvs h
    rw [overlapValsFor_nil] at h
    cases h
    simp
  | cons p rest ih =>
    intro cvs h
    rcases hv : overlapCarrierValue p.1 mn mx p.2 allow market fc with _ | (_ | v)
    · rw [overlapValsFor_cons_raise mn mx allow market fc p rest hv] at h
      exact absurd h (by simp)
    · rw [overlapValsFor_cons_null mn mx allow market fc p rest hv] at h
      have hle := overlapValsFor_length_le mn mx allow market fc rest cvs h
      constructor
      · intro hlen
        simp only [List.length_cons] at hlen
        exfalso
        omega
      · intro hall
        rcases hall p (List.mem_cons_self p rest) with ⟨v, hv2⟩
        rw [hv] at hv2
        exact absurd hv2 (by simp)
    · rw [overlapValsFor_cons_val mn mx allow market fc p rest v hv] at h
      rcases hr : overlapValsFor mn mx allow market fc rest with _ | vs
      · rw [hr] at h
        exact absurd h (by simp)
      · rw [hr] at h
        simp only [Option.map_some'] at h
        cases h
        simp only [List.length_cons]
        constructor
        · intro hlen q hq
          rcases List.mem_cons.1 hq with rfl | hq'
          · exact ⟨v, hv⟩
          · exact ((ih vs hr).1 (by omega)) q hq'
        · intro hall
          have := (ih vs hr).2 (fun q hq => hall q (List.mem_cons_of_mem _ hq))
          omega

theorem overlapValsFor_isSome (mn mx : ℚ) (allow : Bool) (market fc : String) :
    ∀ (bc : List (String × List Band)),
      (∀ p ∈ bc, (overlapCarrierValue p.1 mn mx p.2 allow market fc).isSome = true) →
      (overlapValsFor mn mx allow market fc bc).isSome = true := by
  intro bc
  induction bc with
  | nil => intro _; rfl
  | cons p rest ih =>
    intro h
    have hrec := ih (fun q hq => h q (List.mem_cons_of_mem _ hq))
    rcases hv : overlapCarrierValue p.1 mn mx p.2 allow market fc with _ | (_ | v)
    · have hp := h p (List.mem_cons_self p rest)
      rw [hv] at hp
      exact absurd hp (by simp)
    · rw [overlapValsFor_cons_null mn mx allow market fc p rest hv]
      exact hrec
    · rw [overlapValsFor_cons_val mn mx allow market fc p rest v hv]
      rcases Option.isSome_iff_exists.1 hrec with ⟨vs, hvs⟩
      rw [hvs]
      rfl

theorem overlapRowsFrom_nil (bc : List (String × List Band)) (allow : Bool)
    (market fc : String) : overlapRowsFrom bc allow market fc [] = some [] := rfl

theorem overlapRowsFrom_cons_raise (bc : List (String × List Band)) (allow : Bool)
    (market fc : String) (r : ℚ × ℚ) (rs : List (ℚ × ℚ))
    (h : overlapValsFor r.1 r.2 allow market fc bc = none) :
    overlapRowsFrom bc allow market fc (r :: rs) = none := by
  simp only [overlapRowsFrom, h]

theorem overlapRowsFrom_cons_keep (bc : List (String × List Band)) (allow : Bool)
    (market fc : String) (r : ℚ × ℚ) (rs : List (ℚ × ℚ)) (cvs : List (String × ℚ))
    (h : overlapValsFor r.1 r.2 allow market fc bc = some cvs)
    (hlen : cvs.length = bc.length) :
    overlapRowsFrom bc allow market fc (r :: rs)
      = (overlapRowsFrom bc allow market fc rs).map
          (fun rows => (⟨r.1, r.2, List.lookup "UPS" cvs, List.lookup "FedEx" cvs,
            List.lookup "DHL" cvs⟩ : Row) :: rows) := by
  simp only [overlapRowsFrom, h]
  rw [if_pos hlen]

theorem overlapRowsFrom_cons_skip (bc : List (String × List Band)) (allow : Bool)
    (market fc : String) (r : ℚ × ℚ) (rs : List (ℚ × ℚ)) (cvs : List (String × ℚ))
    (h : overlapValsFor r.1 r.2 allow market fc bc = some cvs)
    (hlen : ¬ cvs.length = bc.length) :
    overlapRowsFrom bc allow market fc (r :: rs)
      = overlapRowsFrom bc allow market fc rs := by
  simp only [overlapRowsFrom, h]
  rw [if_neg hlen]

/-- The rows produced by a successful overlap row loop: every row comes from
a processed bound pair whose carrier collection is full-length, and every such
pair yields its row. -/
theorem overlapRowsFrom_spec (bc : List (String × List Band)) (allow : Bool)
    (market fc : String) :
    ∀ (rs : List (ℚ × ℚ)) (rows : List Row),
      overlapRowsFrom bc allow market fc rs = some rows →
      (∀ r ∈ rows, ∃ q ∈ rs, ∃ cvs,
        overlapValsFor q.1 q.2 allow market fc bc = some cvs ∧
        cvs.length = bc.length ∧
        r = ⟨q.1, q.2, List.lookup "UPS" cvs, List.lookup "FedEx" cvs,
          List.lookup "DHL" cvs⟩) ∧
      (∀ q ∈ rs, ∀ cvs,
        overlapValsFor q.1 q.2 allow market fc bc = some cvs →
        cvs.length = bc.length →
        (⟨q.1, q.2, List.lookup "UPS" cvs, List.lookup "FedEx" cvs,
          List.lookup "DHL" cvs⟩ : Row) ∈ rows) := by
  intro rs
  induction rs with
  | nil =>
    intro rows h
    rw [overlapRowsFrom_nil] at h
    cases h
    constructor
    · intro r hr
      exact absurd hr (by simp)
    · intro q hq
      exact absurd hq (by simp)
  | cons a as ih =>
    intro rows h
    rcases hv : overlapValsFor a.1 a.2 allow market fc bc with _ | cvs0
    · rw [overlapRowsFrom_cons_raise bc allow market fc a as hv] at h
      exact absurd h (by simp)
    · by_cases hlen : cvs0.length = bc.length
      · rw [overlapRowsFrom_cons_keep bc allow market fc a as cvs0 hv hlen] at h
        rcases hr : overlapRowsFrom bc allow market fc as with _ | rows'
        · rw [hr] at h
          exact absurd h (by simp)
        · rw [hr] at h
          simp only [Option.map_some'] at h
          cases h
          obtain ⟨ihf, ihb⟩ := ih rows' hr
          constructor
          · intro r hrm
            rcases List.mem_cons.1 hrm with rfl | hrm'
            · exact ⟨a, List.mem_cons_self a as, cvs0, hv, hlen, rfl⟩
            · rcases ihf r hrm' with ⟨q, hq, cvs, h1, h2, h3⟩
              exact ⟨q, List.mem_cons_of_mem _ hq, cvs, h1, h2, h3⟩
          · intro q hq cvs h1 h2
            rcases List.mem_cons.1 hq with rfl | hq'
            · have hc : cvs0 = cvs := Option.some.inj (hv.symm.trans h1)
              subst hc
              exact List.mem_cons_self _ _
            · exact List.mem_cons_of_mem _ (ihb q hq' cvs h1 h2)
      · rw [overlapRowsFrom_cons_skip bc allow market fc a as cvs0 hv hlen] at h
        obtain ⟨ihf, ihb⟩ := ih rows h
        constructor
        · intro r hrm
          rcases ihf r hrm with ⟨q, hq, cvs, h1, h2, h3⟩
          exact ⟨q, List.mem_cons_of_mem _ hq, cvs, h1, h2, h3⟩
        · intro q hq cvs h1 h2
          rcases List.mem_cons.1 hq with rfl | hq'
          · have hc : cvs0 = cvs := Option.some.inj (hv.symm.trans h1)
            subst hc
            exact absurd h2 hlen
          · exact ihb q hq' cvs h1 h2

theorem mem_sortedRanges {data : List Band} {r : ℚ × ℚ} :
    r ∈ sortedRanges data
      ↔ r ∈ data.map (fun it => (it.at_least_usd, it.but_less_than_usd)) := by
  unfold sortedRanges
  rw [List.mem_insertionSort, List.mem_dedup]

theorem overlapRowsFrom_eq_none_of_mem (bc : List (String × List Band)) (allow : Bool)
    (market fc : String) :
    ∀ (rs : List (ℚ × ℚ)) (r : ℚ × ℚ), r ∈ rs →
      overlapValsFor r.1 r.2 allow market fc bc = none →
      overlapRowsFrom bc allow market fc rs = none := by
  intro rs
  induction rs with
  | nil =>
    intro r hr
    exact absurd hr (by simp)
  | cons a as ih =>
    intro r hr hnone
    rcases List.mem_cons.1 hr with rfl | hr'
    · exact overlapRowsFrom_cons_raise _ _ _ _ _ _ hnone
    · rcases hv : overlapValsFor a.1 a.2 allow market fc bc with _ | cvs
      · exact overlapRowsFrom_cons_raise bc allow market fc a as hv
      · by_cases hlen : cvs.length = bc.length
        · rw [overlapRowsFrom_cons_keep bc allow market fc a as cvs hv hlen,
            ih r hr' hnone]
          rfl
        · rw [overlapRowsFrom_cons_skip bc allow market fc a as cvs hv hlen]
          exact ih r hr' hnone

/-- A fine FedEx band whose bound pair has no fine UPS overlap. -/
def cxBandFx : Band := ⟨"FedEx", 1, 6/5, 18⟩

theorem cxUpsFx_get_none :
    get_ups_surcharge_for_range 1 (6/5) [cxBandUps] true "DE" "international_air_export"
      = none := by
  have hfind : _find_exact_or_containing 1 (6/5) [cxBandUps] = none := by
    simp only [_find_exact_or_containing, fineBandsOf, overlappingOf, cxBandUps, List.find?,
      List.filter, List.map]
    norm_num
  simp only [get_ups_surcharge_for_range, hfind, eq_self_iff_true, if_true,
    calc_de_intl_none, Option.map_none']

theorem cxUpsFx_vals_none :
    overlapValsFor 1 (6/5) true "DE" "international_air_export"
      [("UPS", [cxBandUps]), ("FedEx", [cxBandFx])] = none := by
  apply overlapValsFor_cons_raise
  show get_ups_surcharge_for_range 1 (6/5) [cxBandUps] true "DE" "international_air_export"
    = none
  exact cxUpsFx_get_none

/-- The same input family aborts the overlap view: the UPS formula raises at
the FedEx bound pair (where the catch-all UPS band gives no fine overlap) and
the view returns no rows, exactly as the Python call propagates the
KeyError. -/
theorem overlap_view_none_on_formula_error :
    _create_overlap_view [cxBandUps, cxBandFx] true "DE" "international_air_export"
      = none := by
  unfold _create_overlap_view
  rw [show groupByCarrier [cxBandUps, cxBandFx]
    = [("UPS", [cxBandUps]), ("FedEx", [cxBandFx])] from rfl]
  refine overlapRowsFrom_eq_none_of_mem _ _ _ _ _ ((1 : ℚ), (6/5 : ℚ)) ?_ cxUpsFx_vals_none
  apply mem_sortedRanges.2
  simp [cxBandUps, cxBandFx]

/-- C3 (corrected). Whenever the overlap view returns rows at all (a UPS
formula KeyError at any bound pair instead aborts the view, which then
produces no rows), each row takes its bounds from the (at_least,
but_less_than) pair of some input band — NOT from the fixed-step grid of the
normalized view — and a bound pair is emitted exactly when every carrier
present in the data resolves a non-null value for it. -/
theorem C3_amended (data : List Band) (allow : Bool) (market fuel_category : String)
    (rows : List Row)
    (hrows : _create_overlap_view data allow market fuel_category = some rows) :
    (∀ r ∈ rows,
      (∃ b ∈ data, r.at_least_usd = b.at_least_usd ∧
        r.but_less_than_usd = b.but_less_than_usd) ∧
      ∀ p ∈ groupByCarrier data, ∃ v : ℚ,
        overlapCarrierValue p.1 r.at_least_usd r.but_less_than_usd p.2
          allow market fuel_category = some (some v)) ∧
    (∀ mn mx : ℚ,
      (mn, mx) ∈ data.map (fun it => (it.at_least_usd, it.but_less_than_usd)) →
      (∀ p ∈ groupByCarrier data, ∃ v : ℚ,
        overlapCarrierValue p.1 mn mx p.2 allow market fuel_category = some (some v)) →
      ∃ r ∈ rows, r.at_least_usd = mn ∧ r.but_less_than_usd = mx) := by
  have hspec := overlapRowsFrom_spec (groupByCarrier data) allow market fuel_category
    (sortedRanges data) rows hrows
  constructor
  · intro r hr
    rcases hspec.1 r hr with ⟨q, hq, cvs, h1, h2, h3⟩
    constructor
    · rcases List.mem_map.1 (mem_sortedRanges.1 hq) with ⟨b, hb, hbe⟩
      refine ⟨b, hb, ?_, ?_⟩
      · rw [h3]
        exact (congrArg Prod.fst hbe).symm
      · rw [h3]
        exact (congrArg Prod.snd hbe).symm
    · intro p hp
      have hat : r.at_least_usd = q.1 := by rw [h3]
      have hbl : r.but_less_than_usd = q.2 := by rw [h3]
      rw [hat, hbl]
      exact (overlapValsFor_length_iff q.1 q.2 allow market fuel_category
        (groupByCarrier data) cvs h1).1 h2 p hp
  · intro mn mx hmem hall
    have hvs : (overlapValsFor mn mx allow market fuel_category
        (groupByCarrier data)).isSome = true := by
      apply overlapValsFor_isSome
      intro p hp
      rcases hall p hp with ⟨v, hv⟩
      rw [hv]
      rfl
    rcases Option.isSome_iff_exists.1 hvs with ⟨cvs, hcvs⟩
    have hlen : cvs.length = (groupByCarrier data).length :=
      (overlapValsFor_length_iff mn mx allow market fuel_category
        (groupByCarrier data) cvs hcvs).2 hall
    exact ⟨⟨mn, mx, List.lookup "UPS" cvs, List.lookup "FedEx" cvs, List.lookup "DHL" cvs⟩,
      hspec.2 (mn, mx) (mem_sortedRanges.2 hmem) cvs hcvs hlen, rfl, rfl⟩

/-- One band whose bounds sit off the 0.10 grid on the lower side. -/
def cxBandOff : Band := ⟨"FedEx", 41/20, 12/5, 18⟩

theorem cxOff_lookup :
    overlapCarrierValue "FedEx" (41/20) (12/5) [cxBandOff] true "US" "ground_domestic"
      = some (some 18) := by
  have hne : (("FedEx" : String) = "UPS") = False := by simp
  simp only [overlapCarrierValue, hne, if_false, overlapCarrierLookup, cxBandOff, List.find?]
  norm_num

/-- The overlap view evaluated at the single off-grid FedEx band. -/
theorem cxOff_view_eq :
    _create_overlap_view [cxBandOff] true "US" "ground_domestic"
      = some [⟨41/20, 12/5, none, some 18, none⟩] := by
  have hvals : overlapValsFor (41/20) (12/5) true "US" "ground_domestic"
      [("FedEx", [cxBandOff])] = some [("FedEx", (18 : ℚ))] := by
    rw [overlapValsFor_cons_val (41/20) (12/5) true "US" "ground_domestic"
      ("FedEx", [cxBandOff]) [] 18 cxOff_lookup]
    rfl
  unfold _create_overlap_view
  rw [show groupByCarrier [cxBandOff] = [("FedEx", [cxBandOff])] from rfl]
  rw [show sortedRanges [cxBandOff] = [(41/20, 12/5)] from rfl]
  rw [overlapRowsFrom_cons_keep [("FedEx", [cxBandOff])] true "US" "ground_domestic"
    ((41/20 : ℚ), (12/5 : ℚ)) [] [("FedEx", (18 : ℚ))] hvals (by rfl)]
  rfl

/-- On FedEx-only data the normalized view cannot raise, so it returns rows. -/
theorem cxOff_norm_some :
    ∃ rows, _create_normalized_view [cxBandOff] (1/10) true "US" "ground_domestic"
      = some rows :=
  Option.isSome_iff_exists.1 (normalized_view_isSome_of_no_ups [cxBandOff] (1/10) true
    "US" "ground_domestic" (by
      intro p hp
      rw [show groupByCarrier [cxBandOff] = [("FedEx", [cxBandOff])] from rfl] at hp
      simp only [List.mem_singleton] at hp
      subst hp
      decide))

/-- C3, as stated, is false: with one band from 2.05 to 2.40, the overlap
view returns a single row with bounds (2.05, 2.40) taken from the band, while
the normalized view's 0.10 grid rows start at 2.00, 2.10, 2.20, 2.30; the
overlap row is on no grid cell. -/
theorem C3_counterexample :
    (Option.map (List.map (fun r => r.at_least_usd))
        (_create_overlap_view [cxBandOff] true "US" "ground_domestic"))
      = some [41/20] ∧
    (Option.map (List.map (fun r => r.at_least_usd))
        (_create_normalized_view [cxBandOff] (1/10) true "US" "ground_domestic"))
      = some [2, 21/10, 11/5, 23/10] ∧
    (41/20 : ℚ) ∉ ([2, 21/10, 11/5, 23/10] : List ℚ) := by
  refine ⟨?_, ?_, by norm_num⟩
  · rw [cxOff_view_eq]
    rfl
  · obtain ⟨rows, hrows⟩ := cxOff_norm_some
    rw [hrows, Option.map_some']
    congr 1
    rw [normalized_map_at_least [cxBandOff] (1/10) true "US" "ground_domestic" rows hrows,
      steps_per_dollar_tenth]
    rw [show globalMinOf [cxBandOff] = 41/20 from rfl,
      show globalMaxOf [cxBandOff] = 12/5 from rfl]
    rw [show ⌊(41/20 : ℚ) * ((10 : ℤ) : ℚ)⌋ = 20 by norm_num]
    rw [show ⌈(12/5 : ℚ) * ((10 : ℤ) : ℚ)⌉ = 24 by
      rw [show (12/5 : ℚ) * ((10 : ℤ) : ℚ) = ((24 : ℤ) : ℚ) by norm_num]
      exact Int.ceil_intCast 24]
    unfold intRange
    rw [show List.range ((24 - 20 : ℤ)).toNat = [0, 1, 2, 3] from rfl]
    norm_num [Function.comp]

/-- Witness for C3_amended: the emission side at the concrete one-band data,
where the view succeeds with one row. -/
theorem C3_amended_witness :
    ∃ r ∈ ([⟨41/20, 12/5, none, some 18, none⟩] : List Row),
      r.at_least_usd = 41/20 ∧ r.but_less_than_usd = 12/5 := by
  refine (C3_amended [cxBandOff] true "US" "ground_domestic"
      [⟨41/20, 12/5, none, some 18, none⟩] cxOff_view_eq).2 (41/20) (12/5) ?_ ?_
  · simp [cxBandOff]
  · intro p hp
    rw [show groupByCarrier [cxBandOff] = [("FedEx", [cxBandOff])] from rfl] at hp
    simp only [List.mem_singleton] at hp
    subst hp
    exact ⟨18, cxOff_lookup⟩

/-- Witness for C5_amended at concrete prices. -/
theorem C5_amended_witness :
    ((calculate_ups_surcharge (37/10) "US" "ground_domestic").getD 0
      ≤ (calculate_ups_surcharge 4 "US" "ground_domestic").getD 0) ∧
    calculate_ups_surcharge (37/10) "US" "ground_domestic" = some 20 ∧
    ((calculate_ups_surcharge 3 "US" "ground_domestic").getD 0
      ≤ (calculate_ups_surcharge (7/2) "US" "ground_domestic").getD 0) :=
  ⟨C5_amended.1 (37/10) 4 (by norm_num) (by norm_num), C5_amended.2.1,
   C5_amended.2.2 3 (7/2) (by norm_num) (by norm_num)⟩

/-! ## OverviewAnalytics: services/overview_analytics.py -/

/-- One history row as read by the analytics (the fields it uses; rows are
already filtered to one market and fuel category). Effective dates are
modelled as totally ordered integer day keys (e.g. 20251117 for
"2025-11-17"); 0 stands for a Python-falsy absent date, "" for an absent
carrier, none for a null value_numeric. -/
structure HistoryRow where
  carrier : String
  service : String
  effective_start : Nat
  value_numeric : Option ℚ
deriving DecidableEq

/-- One grouped entry of detect_outliers' data_by_date buckets. -/
structure OutlierEntry where
  carrier : String
  service : String
  value : ℚ
deriving DecidableEq

/-- Append an entry to its date bucket (defaultdict(list): keys in first-seen
order, entries in input order). -/
def addEntry (d : Nat) (e : OutlierEntry) :
    List (Nat × List OutlierEntry) → List (Nat × List OutlierEntry)
  | [] => [(d, [e])]
  | (k, es) :: rest =>
    if k = d then (k, es ++ [e]) :: rest else (k, es) :: addEntry d e rest

/-- The data_by_date grouping of detect_outliers: rows with a truthy date,
a truthy carrier and a non-null value, keyed by (normalized) date. -/
def data_by_date (filtered_rows : List HistoryRow) : List (Nat × List OutlierEntry) :=
  filtered_rows.foldl (fun acc row =>
    if row.effective_start ≠ 0 ∧ row.carrier ≠ "" ∧ row.value_numeric.isSome = true then
      addEntry row.effective_start
        ⟨row.carrier, row.service, row.value_numeric.getD 0⟩ acc
    else acc) []

/-- statistics.median: middle element of the sorted values, or the mean of
the two middle elements for an even count. -/
def median (l : List ℚ) : ℚ :=
  let s := List.insertionSort (fun a b : ℚ => a ≤ b) l
  if l.length % 2 = 1 then s.getD (l.length / 2) 0
  else (s.getD (l.length / 2 - 1) 0 + s.getD (l.length / 2) 0) / 2

/-- One emitted outlier record. -/
structure OutlierRec where
  date : Nat
  carrier : String
  service : String
  surcharge_pct : ℚ
  median_pct : ℚ
  delta_pp : ℚ
deriving DecidableEq

/-- Source detect_outliers: group by date, skip dates with fewer than two
entries, flag entries deviating from the date's median by more than the
threshold, and sort records by absolute delta descending (stable). -/
def detect_outliers (filtered_rows : List HistoryRow) (outlier_threshold_pp : ℚ) :
    List OutlierRec :=
  List.insertionSort (fun a b => |b.delta_pp| ≤ |a.delta_pp|)
    ((data_by_date filtered_rows).flatMap (fun g =>
      if g.2.length < 2 then []
      else
        let med := median (g.2.map (fun e => e.value))
        g.2.filterMap (fun e =>
          let delta := e.value - med
          if outlier_threshold_pp < |delta| then
            some ⟨g.1, e.carrier, e.service, round2 e.value, round2 med, round2 delta⟩
          else none)))

/-- Append a value to a carrier's list (inner defaultdict(list)). -/
def addCarrierVal (c : String) (v : ℚ) :
    List (String × List ℚ) → List (String × List ℚ)
  | [] => [(c, [v])]
  | (k, vs) :: rest =>
    if k = c then (k, vs ++ [v]) :: rest else (k, vs) :: addCarrierVal c v rest

/-- Outer defaultdict of calculate_relative_surcharge_index: per date, per
carrier, the list of numeric values. -/
def addDateCarrierVal (d : Nat) (c : String) (v : ℚ) :
    List (Nat × List (String × List ℚ)) → List (Nat × List (String × List ℚ))
  | [] => [(d, addCarrierVal c v [])]
  | (k, cs) :: rest =>
    if k = d then (k, addCarrierVal c v cs) :: rest
    else (k, cs) :: addDateCarrierVal d c v rest

/-- The by_date grouping of calculate_relative_surcharge_index. -/
def ri_by_date (filtered_rows : List HistoryRow) : List (Nat × List (String × List ℚ)) :=
  filtered_rows.foldl (fun acc row =>
    if row.effective_start ≠ 0 ∧ row.carrier ≠ "" ∧ row.value_numeric.isSome = true then
      addDateCarrierVal row.effective_start row.carrier (row.value_numeric.getD 0) acc
    else acc) []

/-- sorted(by_date.keys(), reverse=True): the distinct dates, newest first. -/
def ri_sorted_dates (filtered_rows : List HistoryRow) : List Nat :=
  List.insertionSort (fun a b : Nat => b ≤ a) ((ri_by_date filtered_rows).map (fun g => g.1))

/-- Character-code lexicographic order on strings (Python string order for
the ASCII carrier names involved). -/
def charsLe : List Char → List Char → Bool
  | [], _ => true
  | _ :: _, [] => false
  | c :: cs, d :: ds =>
    if c.toNat < d.toNat then true
    else if d.toNat < c.toNat then false
    else charsLe cs ds

/-- sorted(list(carriers_in_data)): the distinct carriers of the grouped
data, sorted. -/
def ri_carriers_list (filtered_rows : List HistoryRow) : List String :=
  List.insertionSort (fun a b => charsLe a.data b.data = true)
    (((ri_by_date filtered_rows).flatMap (fun g => g.2.map (fun p => p.1))).dedup)

/-- The selection loop of calculate_relative_surcharge_index: walk the dates
newest first, collect those on which at least carriers_list-many carriers
report (the inner keys are distinct, so the bucket length is the set size),
and stop once window_size dates are collected. -/
def ri_select (byDate : List (Nat × List (String × List ℚ))) (nCarriers : Nat) :
    List Nat → Nat → List Nat
  | [], _ => []
  | d :: ds, budget =>
    if budget = 0 then []
    else if nCarriers ≤ ((byDate.lookup d).getD []).length then
      d :: ri_select byDate nCarriers ds (budget - 1)
    else ri_select byDate nCarriers ds budget

/-- The recent_dates window finally used by calculate_relative_surcharge_index
(source lines building recent_dates, including the fewer-than-3 fallback to
the most recent max(window_size, 10) dates). -/
def calculate_relative_surcharge_index_recent_dates (filtered_rows : List HistoryRow)
    (window_size : Nat) : List Nat :=
  let sorted_dates := ri_sorted_dates filtered_rows
  let recent := ri_select (ri_by_date filtered_rows)
    (ri_carriers_list filtered_rows).length sorted_dates window_size
  if recent.length < 3 then sorted_dates.take (max window_size 10) else recent

/-! ## Outlier-detection claim (C8) -/

/-- C8 (corrected). detect_outliers skips a date exactly when its bucket has
fewer than two value-carrying ROWS, not fewer than two distinct carriers: if
every bucket keyed by a date has fewer than two entries then no record is
emitted for that date, but a single carrier contributing two rows on one
date is still evaluated (see the counterexample). -/
theorem C8_amended (filtered_rows : List HistoryRow) (t : ℚ) (d : Nat)
    (h : ∀ es, (d, es) ∈ data_by_date filtered_rows → es.length < 2) :
    ∀ o ∈ detect_outliers filtered_rows t, o.date ≠ d := by
  intro o ho hod
  unfold detect_outliers at ho
  rw [List.mem_insertionSort] at ho
  rcases List.mem_flatMap.1 ho with ⟨g, hg, hm⟩
  by_cases hlen : g.2.length < 2
  · rw [if_pos hlen] at hm
    exact absurd hm (List.not_mem_nil o)
  · rw [if_neg hlen] at hm
    have hm' : o ∈ g.2.filterMap (fun e =>
        if t < |e.value - median (g.2.map (fun x => x.value))| then
          some ⟨g.1, e.carrier, e.service, round2 e.value,
            round2 (median (g.2.map (fun x => x.value))),
            round2 (e.value - median (g.2.map (fun x => x.value)))⟩
        else none) := hm
    rcases List.mem_filterMap.1 hm' with ⟨e, he, hoe⟩
    split_ifs at hoe
    have hdate : o.date = g.1 := by
      rw [← Option.some.inj hoe]
    have hg1 : g.1 = d := hdate.symm.trans hod
    have hgd : (d, g.2) ∈ data_by_date filtered_rows := by
      rw [← hg1, Prod.mk.eta]
      exact hg
    exact absurd (h g.2 hgd) hlen

/-- Two rows of the SAME carrier on one date. -/
def cxOutRows : List HistoryRow :=
  [⟨"A", "Ground", 1, some 10⟩, ⟨"A", "Ground", 1, some 20⟩]

/-- C8, as stated, is false: on a date where only carrier "A" reports, but
with two rows (values 10 and 20), the date is not skipped — the median is 15
and both rows deviate by 5 > 2, so two outlier records are emitted. -/
theorem C8_counterexample :
    (detect_outliers cxOutRows 2).length = 2 ∧
    (data_by_date cxOutRows).map (fun g => (g.1, g.2.map (fun e => e.carrier)))
      = [(1, ["A", "A"])] := by
  constructor
  · unfold detect_outliers
    rw [(List.perm_insertionSort
      (fun a b : OutlierRec => |b.delta_pp| ≤ |a.delta_pp|) _).length_eq]
    rw [show data_by_date cxOutRows
      = [(1, [⟨"A", "Ground", (10:ℚ)⟩, ⟨"A", "Ground", (20:ℚ)⟩])] from rfl]
    simp only [List.flatMap_cons, List.flatMap_nil, List.append_nil]
    rw [if_neg (show ¬ (([(⟨"A", "Ground", (10:ℚ)⟩ : OutlierEntry),
      ⟨"A", "Ground", (20:ℚ)⟩]).length < 2) from by simp)]
    rw [show (List.map (fun e => e.value)
        ([⟨"A", "Ground", (10:ℚ)⟩, ⟨"A", "Ground", (20:ℚ)⟩] : List OutlierEntry))
      = [(10:ℚ), 20] from rfl]
    rw [show median [(10:ℚ), 20] = 15 from by
      unfold median
      norm_num [List.insertionSort, List.orderedInsert]]
    simp only [List.filterMap_cons, List.filterMap_nil]
    rw [if_pos (show (2:ℚ) < |(10:ℚ) - 15| from by norm_num)]
    rw [if_pos (show (2:ℚ) < |(20:ℚ) - 15| from by norm_num)]
    rfl
  · rfl

/-- A single row on a single date. -/
def cxSingleRow : List HistoryRow := [⟨"A", "Ground", 1, some 10⟩]

/-- Witness for C8_amended: a one-entry date yields no record for that date. -/
theorem C8_amended_witness :
    ¬ ((⟨1, "A", "Ground", 10, 10, 0⟩ : OutlierRec) ∈ detect_outliers cxSingleRow 2) := by
  intro hmem
  have hcov : ∀ es, ((1 : Nat), es) ∈ data_by_date cxSingleRow → es.length < 2 := by
    intro es hes
    rw [show data_by_date cxSingleRow = [(1, [⟨"A", "Ground", (10:ℚ)⟩])] from rfl] at hes
    simp only [List.mem_singleton, Prod.mk.injEq] at hes
    rw [hes.2]
    simp
  exact C8_amended cxSingleRow 2 1 hcov _ hmem rfl

/-! ## Relative-surcharge-index window claim (C6) -/

/-- The selection loop collects, in order, the first window_size dates whose
buckets cover all carriers. -/
theorem ri_select_eq_filter_take (byDate : List (Nat × List (String × List ℚ))) (nC : Nat) :
    ∀ (ds : List Nat) (budget : Nat),
      ri_select byDate nC ds budget
        = (ds.filter (fun d => decide (nC ≤ ((byDate.lookup d).getD []).length))).take budget := by
  intro ds
  induction ds with
  | nil =>
    intro budget
    simp [ri_select]
  | cons d ds ih =>
    intro budget
    rcases Nat.eq_zero_or_pos budget with hb | hb
    · subst hb
      simp [ri_select]
    · obtain ⟨b, rfl⟩ := Nat.exists_eq_succ_of_ne_zero (Nat.pos_iff_ne_zero.1 hb)
      by_cases hc : nC ≤ ((byDate.lookup d).getD []).length
      · simp only [ri_select, if_neg (Nat.succ_ne_zero b), if_pos hc, List.filter_cons,
          decide_eq_true hc, List.take_succ_cons, Nat.succ_sub_one]
        rw [ih b]
        simp [List.take_succ_cons]
      · simp only [ri_select, if_neg (Nat.succ_ne_zero b), if_neg hc, List.filter_cons,
          decide_eq_false hc]
        rw [ih (b + 1)]
        simp

/-- C6 (corrected). When fewer than 3 dates have full carrier coverage, the
averaging window falls back to the most recent max(window_size, 10) distinct
dates — 10 dates for the default window_size of 8 — not to window_size dates
as claimed. -/
theorem C6_amended (filtered_rows : List HistoryRow) (window_size : Nat)
    (h : ((ri_sorted_dates filtered_rows).filter (fun d =>
        decide ((ri_carriers_list filtered_rows).length
          ≤ (((ri_by_date filtered_rows).lookup d).getD []).length))).length < 3) :
    calculate_relative_surcharge_index_recent_dates filtered_rows window_size
      = (ri_sorted_dates filtered_rows).take (max window_size 10) := by
  have hsel : (ri_select (ri_by_date filtered_rows) (ri_carriers_list filtered_rows).length
      (ri_sorted_dates filtered_rows) window_size).length < 3 := by
    rw [ri_select_eq_filter_take]
    calc (((ri_sorted_dates filtered_rows).filter _).take window_size).length
        = min window_size ((ri_sorted_dates filtered_rows).filter _).length :=
          List.length_take _ _
    _ ≤ ((ri_sorted_dates filtered_rows).filter _).length := min_le_right _ _
    _ < 3 := h
  show (if (ri_select (ri_by_date filtered_rows) (ri_carriers_list filtered_rows).length
      (ri_sorted_dates filtered_rows) window_size).length < 3 then
      (ri_sorted_dates filtered_rows).take (max window_size 10)
    else ri_select (ri_by_date filtered_rows) (ri_carriers_list filtered_rows).length
      (ri_sorted_dates filtered_rows) window_size)
    = (ri_sorted_dates filtered_rows).take (max window_size 10)
  rw [if_pos hsel]

/-- Eleven distinct dates; carrier "B" reports only on the newest one, so
only one date is fully covered. -/
def cxRiRows : List HistoryRow :=
  [⟨"A", "G", 1, some 10⟩, ⟨"A", "G", 2, some 10⟩, ⟨"A", "G", 3, some 10⟩,
   ⟨"A", "G", 4, some 10⟩, ⟨"A", "G", 5, some 10⟩, ⟨"A", "G", 6, some 10⟩,
   ⟨"A", "G", 7, some 10⟩, ⟨"A", "G", 8, some 10⟩, ⟨"A", "G", 9, some 10⟩,
   ⟨"A", "G", 10, some 10⟩, ⟨"A", "G", 11, some 10⟩, ⟨"B", "G", 11, some 12⟩]

/-- C6, as stated, is false: with 11 distinct dates and only one fully
covered date, the fallback window has the 10 most recent dates, not the 8 of
the default window_size. -/
theorem C6_counterexample :
    calculate_relative_surcharge_index_recent_dates cxRiRows 8
      = [11, 10, 9, 8, 7, 6, 5, 4, 3, 2] ∧
    (calculate_relative_surcharge_index_recent_dates cxRiRows 8).length = 10 ∧
    ((ri_sorted_dates cxRiRows).take 8).length = 8 :=
  ⟨by decide, by decide, by decide⟩

/-- Witness for C6_amended at the concrete row set. -/
theorem C6_amended_witness :
    calculate_relative_surcharge_index_recent_dates cxRiRows 8
      = (ri_sorted_dates cxRiRows).take (max 8 10) :=
  C6_amended cxRiRows 8 (by decide)

end ReFuel
